import Mathlib

/-!
Verification of the asab-mcp Markdown-notes handler
(`asabmcp/markdown_notes/handler_mcp.py`).

Python strings are modelled as Lean `String` (a sequence of code points,
accessed through its `data : List Char` field).  The POSIX path functions
used by the handler (`os.path.join`, `os.path.normpath`, `os.path.abspath`,
`os.path.commonpath`, `os.path.dirname`, `os.path.basename`) are translated
from CPython's `posixpath` module; `os.getcwd()` is an explicit `cwd`
parameter (always an absolute path on a running system).  The filesystem is
modelled as a finite map from absolute path strings to file contents plus a
set of directory paths; OS-level I/O failures (permissions, a file standing
where a directory is needed) are outside the model.
-/

namespace AsabMcp

/-! ### Python string primitives -/

/-- Python `s.startswith(pre)`. -/
def strStartsWith (pre s : String) : Bool :=
  pre.data.isPrefixOf s.data

/-- Python `s.endswith(suf)`. -/
def strEndsWith (suf s : String) : Bool :=
  suf.data.isSuffixOf s.data

/-- Python `s[n:]`. -/
def pyDrop (n : Nat) (s : String) : String :=
  ⟨s.data.drop n⟩

/-- Python `s[:-n]` (for `n ≤ len(s)`; clips at the empty string). -/
def pyDropRight (n : Nat) (s : String) : String :=
  ⟨s.data.take (s.data.length - n)⟩

/-- The `while user_path.startswith('/'): user_path = user_path[1:]` loop of
`_normalize_path`. -/
def stripLeadingSlashes (s : String) : String :=
  ⟨s.data.dropWhile (· = '/')⟩

/-- Python `s.split('/')` on the underlying character list
(accumulator holds the current field, reversed). -/
def splitSlashAux : List Char → List Char → List String
  | cur, [] => [⟨cur.reverse⟩]
  | cur, c :: cs =>
    if c = '/' then ⟨cur.reverse⟩ :: splitSlashAux [] cs
    else splitSlashAux (c :: cur) cs

/-- Python `s.split('/')`. -/
def splitSlash (s : String) : List String :=
  splitSlashAux [] s.data

/-- Python `'/'.join(parts)`. -/
def joinSlash : List String → String
  | [] => ""
  | [s] => s
  | s :: rest => s ++ "/" ++ joinSlash rest

/-- Python `', '.join(parts)`. -/
def joinComma : List String → String
  | [] => ""
  | [s] => s
  | s :: rest => s ++ ", " ++ joinComma rest

/-- Python string `<`: lexicographic comparison of code points. -/
def charsLt : List Char → List Char → Bool
  | [], [] => false
  | [], _ :: _ => true
  | _ :: _, [] => false
  | a :: as, b :: bs =>
    if a < b then true else if b < a then false else charsLt as bs

/-- Python string `<` on `String`. -/
def pyStrLt (a b : String) : Bool := charsLt a.data b.data

/-- Python `sorted(...)` on strings (insertion sort over the code-point
lexicographic order, which is what Python string comparison uses). -/
def insertSorted (s : String) : List String → List String
  | [] => [s]
  | x :: xs => if pyStrLt x s then x :: insertSorted s xs else s :: x :: xs

/-- Python `sorted(...)` on a list of strings. -/
def sortStrings : List String → List String
  | [] => []
  | x :: xs => insertSorted x (sortStrings xs)

/-! ### POSIX path functions (CPython `posixpath`) -/

/-- `posixpath.join(a, b)` (two-argument form used by the handler). -/
def osJoin (a b : String) : String :=
  if strStartsWith "/" b then b
  else if a = "" ∨ strEndsWith "/" a then a ++ b
  else a ++ "/" ++ b

/-- The `initial_slashes` count of `posixpath.normpath`: 0 for a relative
path, 2 for a path starting with exactly two slashes, 1 otherwise. -/
def normpathInitialSlashes (s : String) : Nat :=
  if strStartsWith "/" s then
    if strStartsWith "//" s ∧ ¬ strStartsWith "///" s then 2 else 1
  else 0

/-- One step of the component loop of `posixpath.normpath`:
skip `''` and `'.'`; keep a component unless it is a `'..'` that cancels a
previous real component; a `'..'` at an absolute root is dropped. -/
def normpathFold (initialSlashes : Nat) (acc : List String) (comp : String) :
    List String :=
  if comp = "" ∨ comp = "." then acc
  else if comp ≠ ".." ∨ (initialSlashes = 0 ∧ acc = []) ∨
      acc.getLast? = some ".." then acc ++ [comp]
  else acc.dropLast

/-- `sep * initial_slashes` for `initial_slashes ∈ {0, 1, 2}`. -/
def slashesStr : Nat → String
  | 0 => ""
  | 1 => "/"
  | _ => "//"

/-- `posixpath.normpath`. -/
def normpath (path : String) : String :=
  if path = "" then "."
  else
    let ini := normpathInitialSlashes path
    let newComps := (splitSlash path).foldl (normpathFold ini) []
    let p := slashesStr ini ++ joinSlash newComps
    if p = "" then "." else p

/-- `posixpath.abspath`, with `os.getcwd()` passed explicitly as `cwd`. -/
def abspath (cwd path : String) : String :=
  if strStartsWith "/" path then normpath path
  else normpath (osJoin cwd path)

/-- The component split used by `posixpath.commonpath`:
split on `'/'` and drop empty and `'.'` components. -/
def splitFilterComps (s : String) : List String :=
  (splitSlash s).filter (fun c => c != "" && c != ".")

/-- Longest common prefix of two component lists (what
`posixpath.commonpath`'s `min`/`max`-and-scan computes for two paths). -/
def commonPrefix : List String → List String → List String
  | a :: as, b :: bs => if a = b then a :: commonPrefix as bs else []
  | _, _ => []

/-- `posixpath.commonpath([a, b])`; `none` models the `ValueError` raised
when an absolute and a relative path are mixed. -/
def commonpath2 (a b : String) : Option String :=
  if (strStartsWith "/" a) ≠ (strStartsWith "/" b) then none
  else
    some ((if strStartsWith "/" a then "/" else "") ++
      joinSlash (commonPrefix (splitFilterComps a) (splitFilterComps b)))

/-- `_normalize_path(base_path, user_path)` from `handler_mcp.py`:
strip leading slashes from the user path, resolve both the base and the
joined path to canonical absolute form, and accept exactly when
`os.path.commonpath([abs_base, abs_user]) == abs_base`. -/
def normalize_path (cwd base_path user_path : String) : Option String :=
  let user_path := stripLeadingSlashes user_path
  let abs_base := abspath cwd base_path
  let abs_user := abspath cwd (osJoin base_path user_path)
  match commonpath2 abs_base abs_user with
  | some cp => if cp = abs_base then some abs_user else none
  | none => none

/-- `posixpath.dirname` (everything up to the last `'/'`, with trailing
slashes stripped from the head unless the head is all slashes). -/
def dirname (p : String) : String :=
  match (p.data.reverse.dropWhile (· ≠ '/')) with
  | [] => ""
  | head =>
    if head.all (· = '/') then ⟨head.reverse⟩
    else ⟨(head.dropWhile (· = '/')).reverse⟩

/-- `posixpath.basename` (everything after the last `'/'`). -/
def baseName (p : String) : String :=
  ⟨(p.data.reverse.takeWhile (· ≠ '/')).reverse⟩

/-! ### Module-level constants of `handler_mcp.py` -/

def NOTE_URI_PREFIX : String := "note://"
def PICTURE_URI_PREFIX : String := "img://"
def NOTE_MIME_TYPE : String := "text/markdown"
def NOTE_EXTENSION : String := ".md"
/-- `PICTURE_EXTENSIONS = {".jpg", ".png", ".gif"}` (a Python set; every use
either tests membership-by-suffix or sorts it first, so a list is a faithful
model). -/
def PICTURE_EXTENSIONS : List String := [".jpg", ".png", ".gif"]

/-! ### Filesystem model

A finite map from absolute canonical path strings (the outputs of
`_normalize_path` / `os.path.abspath`) to file contents, plus the set of
directories.  `content` of a picture is its byte string. -/

structure FS where
  files : List (String × String)
  dirs : List String
deriving DecidableEq, Repr

def FS.empty : FS := ⟨[], []⟩

/-- `os.path.isfile` (on the canonical paths the handler passes to it). -/
def FS.isfile (fs : FS) (p : String) : Bool :=
  (fs.files.lookup p).isSome

/-- `os.path.isdir`. -/
def FS.isdir (fs : FS) (p : String) : Bool :=
  fs.dirs.contains p

/-- `open(p, "w").write(c)` / `open(p, "wb").write(c)`: full overwrite. -/
def FS.writeFile (fs : FS) (p c : String) : FS :=
  ⟨(p, c) :: fs.files.filter (fun kv => kv.1 != p), fs.dirs⟩

/-- `open(p, "r").read()`. -/
def FS.readFile (fs : FS) (p : String) : Option String :=
  fs.files.lookup p

/-- `os.remove(p)`. -/
def FS.removeFile (fs : FS) (p : String) : FS :=
  ⟨fs.files.filter (fun kv => kv.1 != p), fs.dirs⟩

/-- All the non-root ancestor paths of an absolute path `p`, shortest
first: for `/a/b/c` the list `["/a", "/a/b", "/a/b/c"]`. -/
def dirPrefixes (p : String) : List String :=
  let segs := splitFilterComps p
  (List.range segs.length).map (fun i => "/" ++ joinSlash (segs.take (i + 1)))

/-- `os.makedirs(p, exist_ok=True)`: create `p` and all missing ancestors.
Never touches files. -/
def FS.makedirs (fs : FS) (p : String) : FS :=
  ⟨fs.files, fs.dirs ++ (dirPrefixes p).filter (fun d => !fs.dirs.contains d)⟩

/-- `os.listdir(dp)` (set of direct child names; enumeration order follows
the store, every caller in the handler sorts or counts the result). -/
def FS.listdir (fs : FS) (dp : String) : List String :=
  (((fs.files.map Prod.fst) ++ fs.dirs).filter
    (fun q => dirname q = dp)).map baseName |>.dedup

/-- Direct child directory names of an absolute path. -/
def FS.childDirs (fs : FS) (dp : String) : List String :=
  ((fs.dirs.filter (fun q => dirname q = dp)).map baseName).dedup

/-- Direct child file names of an absolute path. -/
def FS.childFiles (fs : FS) (dp : String) : List String :=
  (((fs.files.map Prod.fst).filter (fun q => dirname q = dp)).map baseName).dedup

/-- `os.walk(top)` (top-down), fuelled: `dp` is the dirpath string exactly as
`os.walk` builds it (`top`, then `join(top, sub)`, ...), resolved against
`cwd` to query the store. -/
def FS.walkAux (fs : FS) (cwd : String) : Nat → String → List (String × List String × List String)
  | 0, _ => []
  | fuel + 1, dp =>
    let adp := abspath cwd dp
    let dirnames := fs.childDirs adp
    let filenames := fs.childFiles adp
    (dp, dirnames, filenames) ::
      dirnames.flatMap (fun d => fs.walkAux cwd fuel (osJoin dp d))

/-- `os.walk(top)`: the fuel `fs.dirs.length + 1` dominates the depth of any
directory chain representable in the store. -/
def FS.walk (fs : FS) (cwd top : String) : List (String × List String × List String) :=
  fs.walkAux cwd (fs.dirs.length + 1) top

/-! ### Result and log types -/

inductive LogLevel where
  | notice
  | warning
deriving DecidableEq, Repr

/-- One `L.log` / `L.warning` call: level and message. -/
structure LogEvent where
  level : LogLevel
  message : String
deriving DecidableEq, Repr

/-- `MCPToolResultResourceLink`. -/
structure ResourceLink where
  uri : String
  name : String
  description : String
  mimeType : String
deriving DecidableEq, Repr

/-- An element of a tool-result list: text content or a resource link. -/
inductive MCPResult where
  | text (t : String)
  | link (l : ResourceLink)
deriving DecidableEq, Repr

instance exceptDecEq {ε α : Type} [DecidableEq ε] [DecidableEq α] :
    DecidableEq (Except ε α) := fun x y =>
  match x, y with
  | .ok a, .ok b =>
    if h : a = b then .isTrue (by rw [h])
    else .isFalse (fun hc => h (Except.ok.inj hc))
  | .error a, .error b =>
    if h : a = b then .isTrue (by rw [h])
    else .isFalse (fun hc => h (Except.error.inj hc))
  | .ok _, .error _ => .isFalse (fun hc => Except.noConfusion hc)
  | .error _, .ok _ => .isFalse (fun hc => Except.noConfusion hc)

/-- The resource dictionary returned by `resource_template_notes`. -/
structure NoteResource where
  uri : String
  mimeType : String
  text : String
deriving DecidableEq, Repr

/-- Appending `NOTE_EXTENSION` when absent
(`if not path.endswith(NOTE_EXTENSION): path += NOTE_EXTENSION`). -/
def withNoteExt (path : String) : String :=
  if strEndsWith NOTE_EXTENSION path then path else path ++ NOTE_EXTENSION

/-! ### The handler operations

Each is translated from the corresponding `async def` of
`MarkdownNotesMCPHandler`; a raised `ValueError`/`AssertionError` is an
`Except.error` carrying the message, and state-changing operations return
the new filesystem.  `self.NotesDirectory` is the `notesDir` parameter;
`__init__` runs `os.makedirs(self.NotesDirectory, exist_ok=True)`, i.e.
`initialFS`. -/

def initialFS (cwd notesDir : String) : FS :=
  FS.empty.makedirs (abspath cwd notesDir)

/-- `tool_create_or_update_note(path, content)`. -/
def tool_create_or_update_note (cwd notesDir : String) (fs : FS)
    (path content : String) :
    Except String (FS × List LogEvent × ResourceLink) :=
  let path := withNoteExt path
  match normalize_path cwd notesDir path with
  | none => .error "Path is not within the notes directory"
  | some note_path =>
    let fs := fs.makedirs (dirname note_path)
    let new_note := !fs.isfile note_path
    let fs := fs.writeFile note_path content
    let ev : LogEvent :=
      if new_note then ⟨.notice, "Created a new Markdown note"⟩
      else ⟨.notice, "Updated a Markdown note"⟩
    .ok (fs, [ev],
      { uri := NOTE_URI_PREFIX ++ "/" ++ path
        name := path
        description :=
          (if new_note then "Created" else "Updated") ++ " a Markdown note"
        mimeType := NOTE_MIME_TYPE })

/-- `tool_delete_note(path)`. -/
def tool_delete_note (cwd notesDir : String) (fs : FS) (path : String) :
    Except String (FS × List LogEvent × String) :=
  let path := withNoteExt path
  match normalize_path cwd notesDir path with
  | none => .error "Path is not within the notes directory"
  | some note_path =>
    if !fs.isfile note_path then
      .error ("Note '" ++ path ++ "' does not exist. Use 'list_notes' to see available notes.")
    else
      .ok (fs.removeFile note_path, [⟨.notice, "Deleted a Markdown note"⟩],
        "Successfully deleted note: " ++ path)

/-- `tool_read_note(path)`. -/
def tool_read_note (cwd notesDir : String) (fs : FS) (path : String) :
    Except String String :=
  let path := withNoteExt path
  match normalize_path cwd notesDir path with
  | none => .error "Path is not within the notes directory"
  | some note_path =>
    if !fs.isfile note_path then
      .error ("Note '" ++ path ++ "' does not exist. Use 'list_notes' to see available notes.")
    else
      .ok ((fs.readFile note_path).getD "")

/-- `tool_list_notes(directory='', directories=False)`.  The Python `for
directory in sorted(dirlist):` loop leaks its variable: after a non-empty
loop, `directory` holds the last (lexicographically greatest) subdirectory
name, and the subsequent URI/name prefix construction reads that leaked
value — modelled by the `getLastD` rebinding. -/
def tool_list_notes (cwd notesDir : String) (fs : FS)
    (directory : String := "") (directories : Bool := false) :
    Except String (List MCPResult) :=
  match normalize_path cwd notesDir directory with
  | none => .error "Path is not within the notes directory"
  | some directory_path =>
    if !fs.isdir directory_path then
      .error ("Directory '" ++ directory ++ "' does not exist. Use an empty string to list the root directory.")
    else
      let notes := (fs.listdir directory_path).filter
        (fun note => strEndsWith NOTE_EXTENSION note && !strStartsWith "." note)
      let dir_display :=
        if directory = "" then "root directory"
        else "directory '" ++ directory ++ "'"
      let summary :=
        if notes.length = 0 then
          "No Markdown notes found in " ++ dir_display ++ ".\n"
        else
          "Found " ++ toString notes.length ++ " note" ++
            (if notes.length ≠ 1 then "s" else "") ++ " in " ++ dir_display ++
            ":\n\n" ++
            String.join ((sortStrings notes).map (fun note => " * `" ++ note ++ "`\n"))
      let dirlist :=
        if directories then
          (fs.listdir directory_path).filter
            (fun d => fs.isdir (osJoin directory_path d) && !strStartsWith "." d)
        else []
      let summary :=
        if directories then
          summary ++ "\nFound " ++ toString dirlist.length ++ " director" ++
            (if dirlist.length ≠ 1 then "ies" else "y") ++ " in " ++
            dir_display ++ ":\n\n" ++
            String.join ((sortStrings dirlist).map (fun d => " * `" ++ d ++ "`\n"))
        else summary
      let directory :=
        if directories then (sortStrings dirlist).getLastD directory
        else directory
      let uriPrefixStr :=
        if directory ≠ "" then NOTE_URI_PREFIX ++ "/" ++ directory
        else NOTE_URI_PREFIX
      let namePrefixStr :=
        if directory ≠ "" then directory ++ "/" else ""
      .ok (MCPResult.text summary ::
        (sortStrings notes).map (fun note => MCPResult.link
          { uri := uriPrefixStr ++ "/" ++ note
            name := namePrefixStr ++ note
            description := "Markdown note: " ++ namePrefixStr ++ note
            mimeType := NOTE_MIME_TYPE }))

/-- `tool_upload_picture(path, content)`.  Note that the Python code
reassigns `path` to the confinement result before building the link, so the
returned link carries the absolute resolved filesystem path. -/
def tool_upload_picture (cwd notesDir : String) (fs : FS)
    (path content : String) :
    Except String (FS × ResourceLink) :=
  match normalize_path cwd notesDir path with
  | none => .error "Path is not within the notes directory"
  | some path =>
    if !PICTURE_EXTENSIONS.any (fun ext => strEndsWith ext path) then
      .error ("Unsupported picture extension. The path must end with one of: " ++
        joinComma (sortStrings PICTURE_EXTENSIONS))
    else
      let fs := fs.makedirs (dirname path)
      let fs := fs.writeFile path content
      let mime_type : Option String :=
        if strEndsWith ".png" path then some "image/png"
        else if strEndsWith ".jpg" path then some "image/jpeg"
        else if strEndsWith ".gif" path then some "image/gif"
        else none
      match mime_type with
      | none => .error ("Unsupported picture extension: " ++ path)
      | some mime =>
        .ok (fs,
          { uri := PICTURE_URI_PREFIX ++ "/" ++ path
            name := path
            description := "Uploaded image: " ++ path
            mimeType := mime })

/-- `resource_template_notes(uri)`: returns `none` (with a warning log) for
a missing note, the resource dictionary otherwise.  The failed `assert` on a
foreign prefix is an error. -/
def resource_template_notes (cwd notesDir : String) (fs : FS) (uri : String) :
    Except String (List LogEvent × Option NoteResource) :=
  if !strStartsWith NOTE_URI_PREFIX uri then
    .error "AssertionError"
  else
    let note_path := pyDrop NOTE_URI_PREFIX.length uri
    let note_path := withNoteExt note_path
    match normalize_path cwd notesDir note_path with
    | none => .error "Path is not within the notes directory"
    | some note_path =>
      if !fs.isfile note_path then
        .ok ([⟨.warning, "Note not found"⟩], none)
      else
        .ok ([], some
          { uri := uri
            mimeType := NOTE_MIME_TYPE
            text := (fs.readFile note_path).getD "" })

/-- `resource_list_notes()`: walk the whole notes directory and build one
resource link per `.md` file, computing each file's relative location by
string-slicing the `NotesDirectory` prefix off the walk dirpath. -/
def resource_list_notes (cwd notesDir : String) (fs : FS) : List ResourceLink :=
  (fs.walk cwd notesDir).foldl (fun resources entry =>
    let root := entry.1
    resources ++ entry.2.2.filterMap (fun file =>
      if strEndsWith NOTE_EXTENSION file then
        let path := pyDrop notesDir.length root
        if path ≠ "" then
          some { uri := NOTE_URI_PREFIX ++ "/" ++ path ++ "/" ++ file
                 name := path ++ "/" ++ pyDropRight NOTE_EXTENSION.length file
                 description := "Markdown note: " ++ path ++ "/" ++
                   pyDropRight NOTE_EXTENSION.length file
                 mimeType := NOTE_MIME_TYPE }
        else
          some { uri := NOTE_URI_PREFIX ++ "/" ++ file
                 name := pyDropRight NOTE_EXTENSION.length file
                 description := "Markdown note: " ++
                   pyDropRight NOTE_EXTENSION.length file
                 mimeType := NOTE_MIME_TYPE }
      else none)) []

/-! ### Lemmas about the string primitives -/

theorem strStartsWith_iff {pre s : String} :
    strStartsWith pre s = true ↔ pre.data <+: s.data := by
  simp [strStartsWith]

theorem strStartsWith_slash_iff {s : String} :
    strStartsWith "/" s = true ↔ ∃ t, s.data = '/' :: t := by
  rw [strStartsWith_iff]
  show ['/'] <+: s.data ↔ _
  constructor
  · rintro ⟨t, ht⟩; exact ⟨t, ht.symm⟩
  · rintro ⟨t, ht⟩; exact ⟨t, ht.symm⟩

theorem strStartsWith_dslash_iff {s : String} :
    strStartsWith "//" s = true ↔ ∃ t, s.data = '/' :: '/' :: t := by
  rw [strStartsWith_iff]
  show ['/', '/'] <+: s.data ↔ _
  constructor
  · rintro ⟨t, ht⟩; exact ⟨t, ht.symm⟩
  · rintro ⟨t, ht⟩; exact ⟨t, ht.symm⟩

theorem data_slash_append (x : String) : ("/" ++ x).data = '/' :: x.data := rfl

theorem slash_append_right_inj {x y : String} :
    ("/" ++ x : String) = "/" ++ y ↔ x = y := by
  constructor
  · intro h
    apply String.ext
    have := congrArg String.data h
    rw [data_slash_append, data_slash_append] at this
    exact List.cons_injective this
  · intro h; rw [h]

theorem data_eq_nil_iff {s : String} : s.data = [] ↔ s = "" := by
  constructor
  · intro h; exact String.ext h
  · intro h; rw [h]

/-! ### Lemmas about `splitSlash` and `joinSlash` -/

theorem splitSlashAux_no_slash :
    ∀ (l cur : List Char), (∀ c ∈ l, c ≠ '/') →
    splitSlashAux cur l = [⟨cur.reverse ++ l⟩] := by
  intro l
  induction l with
  | nil => intro cur _; simp [splitSlashAux]
  | cons c cs ih =>
    intro cur h
    have hc : c ≠ '/' := h c (by simp)
    rw [splitSlashAux, if_neg hc, ih (c :: cur) (fun d hd => h d (by simp [hd]))]
    simp

theorem splitSlashAux_append :
    ∀ (l₁ : List Char) (cur l₂ : List Char), (∀ c ∈ l₁, c ≠ '/') →
    splitSlashAux cur (l₁ ++ '/' :: l₂) =
      ⟨cur.reverse ++ l₁⟩ :: splitSlashAux [] l₂ := by
  intro l₁
  induction l₁ with
  | nil => intro cur l₂ _; simp [splitSlashAux]
  | cons c cs ih =>
    intro cur l₂ h
    have hc : c ≠ '/' := h c (by simp)
    rw [List.cons_append, splitSlashAux, if_neg hc,
      ih (c :: cur) l₂ (fun d hd => h d (by simp [hd]))]
    simp

theorem splitSlashAux_sep_free :
    ∀ (l cur : List Char), (∀ c ∈ cur, c ≠ '/') →
    ∀ s ∈ splitSlashAux cur l, ∀ c ∈ s.data, c ≠ '/' := by
  intro l
  induction l with
  | nil =>
    intro cur hcur s hs c hc
    simp [splitSlashAux] at hs
    subst hs
    exact hcur c (by simpa using hc)
  | cons a as ih =>
    intro cur hcur s hs c hc
    by_cases ha : a = '/'
    · subst ha
      rw [splitSlashAux, if_pos rfl] at hs
      rcases List.mem_cons.mp hs with h | h
      · subst h; exact hcur c (by simpa using hc)
      · exact ih [] (by simp) s h c hc
    · rw [splitSlashAux, if_neg ha] at hs
      refine ih (a :: cur) ?_ s hs c hc
      intro d hd
      rcases List.mem_cons.mp hd with h | h
      · subst h; exact ha
      · exact hcur d h

theorem splitSlash_sep_free (s : String) :
    ∀ t ∈ splitSlash s, ∀ c ∈ t.data, c ≠ '/' :=
  splitSlashAux_sep_free s.data [] (by simp)

theorem joinSlash_cons_cons (s r : String) (rs : List String) :
    joinSlash (s :: r :: rs) = s ++ "/" ++ joinSlash (r :: rs) := rfl

theorem joinSlash_data_cons_cons (s r : String) (rs : List String) :
    (joinSlash (s :: r :: rs)).data = s.data ++ '/' :: (joinSlash (r :: rs)).data := by
  rw [joinSlash_cons_cons]
  simp

theorem splitSlash_joinSlash :
    ∀ (tl : List String) (hd : String),
    (∀ t ∈ hd :: tl, ∀ c ∈ t.data, c ≠ '/') →
    splitSlashAux [] (joinSlash (hd :: tl)).data = hd :: tl := by
  intro tl
  induction tl with
  | nil =>
    intro hd h
    show splitSlashAux [] hd.data = [hd]
    rw [splitSlashAux_no_slash hd.data [] (h hd (by simp))]
    simp
  | cons m tl ih =>
    intro hd h
    rw [joinSlash_data_cons_cons,
      splitSlashAux_append hd.data [] _ (h hd (by simp))]
    rw [ih m (fun t ht => h t (by simp [List.mem_cons] at ht ⊢; tauto))]
    simp

theorem sepFree_append_inj :
    ∀ {l₁ l₂ r₁ r₂ : List Char},
    (∀ c ∈ l₁, c ≠ '/') → (∀ c ∈ l₂, c ≠ '/') →
    l₁ ++ '/' :: r₁ = l₂ ++ '/' :: r₂ → l₁ = l₂ ∧ r₁ = r₂ := by
  intro l₁
  induction l₁ with
  | nil =>
    intro l₂ r₁ r₂ _ h₂ h
    cases l₂ with
    | nil => simpa using h
    | cons b bs =>
      exfalso
      simp at h
      exact h₂ b (by simp) h.1.symm
  | cons a as ih =>
    intro l₂ r₁ r₂ h₁ h₂ h
    cases l₂ with
    | nil =>
      exfalso
      simp at h
      exact h₁ a (by simp) h.1
    | cons b bs =>
      simp at h
      obtain ⟨hab, htail⟩ := h
      obtain ⟨h1, h2⟩ := ih (fun c hc => h₁ c (by simp [hc]))
        (fun c hc => h₂ c (by simp [hc])) htail
      exact ⟨by rw [hab, h1], h2⟩

theorem joinSlash_inj :
    ∀ (xs ys : List String),
    (∀ s ∈ xs, s ≠ "" ∧ ∀ c ∈ s.data, c ≠ '/') →
    (∀ s ∈ ys, s ≠ "" ∧ ∀ c ∈ s.data, c ≠ '/') →
    joinSlash xs = joinSlash ys → xs = ys := by
  intro xs
  induction xs with
  | nil =>
    intro ys _ hys h
    cases ys with
    | nil => rfl
    | cons y ys' =>
      exfalso
      cases ys' with
      | nil =>
        exact (hys y (by simp)).1 (by
          apply String.ext
          have := congrArg String.data h
          simpa using this.symm)
      | cons z zs =>
        have := congrArg String.data h
        rw [joinSlash_data_cons_cons] at this
        exact absurd this.symm (by simp [show (joinSlash ([] : List String)).data = [] from rfl])
  | cons x xs' ih =>
    intro ys hxs hys h
    cases ys with
    | nil =>
      exfalso
      cases xs' with
      | nil =>
        exact (hxs x (by simp)).1 (by
          apply String.ext
          have := congrArg String.data h
          simpa using this)
      | cons z zs =>
        have := congrArg String.data h
        rw [joinSlash_data_cons_cons] at this
        exact absurd this (by simp [show (joinSlash ([] : List String)).data = [] from rfl])
    | cons y ys' =>
      cases xs' with
      | nil =>
        cases ys' with
        | nil =>
          have : x = y := h
          rw [this]
        | cons w ws =>
          exfalso
          have hd := congrArg String.data h
          rw [joinSlash_data_cons_cons] at hd
          have : '/' ∈ x.data := by
            show '/' ∈ (joinSlash [x]).data
            rw [hd]; simp
          exact (hxs x (by simp)).2 '/' this rfl
      | cons z zs =>
        cases ys' with
        | nil =>
          exfalso
          have hd := congrArg String.data h
          rw [joinSlash_data_cons_cons] at hd
          have : '/' ∈ y.data := by
            show '/' ∈ (joinSlash [y]).data
            rw [← hd]; simp
          exact (hys y (by simp)).2 '/' this rfl
        | cons w ws =>
          have hd := congrArg String.data h
          rw [joinSlash_data_cons_cons, joinSlash_data_cons_cons] at hd
          obtain ⟨h1, h2⟩ := sepFree_append_inj
            (hxs x (by simp)).2 (hys y (by simp)).2 hd
          have hx : x = y := String.ext h1
          have hrest : (z :: zs) = (w :: ws) :=
            ih (w :: ws) (fun s hs => hxs s (by simp [hs]))
              (fun s hs => hys s (by simp [hs])) (String.ext h2)
          rw [hx, hrest]

/-! ### Lemmas about `commonPrefix` and `splitFilterComps` -/

theorem commonPrefix_eq_left_iff :
    ∀ (a b : List String), commonPrefix a b = a ↔ a <+: b := by
  intro a
  induction a with
  | nil =>
    intro b
    cases b <;> simp [commonPrefix]
  | cons x xs ih =>
    intro b
    cases b with
    | nil =>
      simp [commonPrefix]
    | cons y ys =>
      by_cases hxy : x = y
      · subst hxy
        rw [commonPrefix, if_pos rfl]
        simp [List.cons_prefix_cons, ih ys]
      · rw [commonPrefix, if_neg hxy]
        simp [List.cons_prefix_cons, hxy]

theorem commonPrefix_mem_left :
    ∀ (a b : List String), ∀ x ∈ commonPrefix a b, x ∈ a := by
  intro a
  induction a with
  | nil => intro b x hx; cases b <;> simp [commonPrefix] at hx
  | cons s ss ih =>
    intro b x hx
    cases b with
    | nil => simp [commonPrefix] at hx
    | cons t ts =>
      by_cases hst : s = t
      · subst hst
        rw [commonPrefix, if_pos rfl] at hx
        rcases List.mem_cons.mp hx with h | h
        · simp [h]
        · exact List.mem_cons_of_mem _ (ih ts x h)
      · rw [commonPrefix, if_neg hst] at hx
        simp at hx

theorem splitFilterComps_good (s : String) :
    ∀ t ∈ splitFilterComps s, (t ≠ "" ∧ t ≠ ".") ∧ ∀ c ∈ t.data, c ≠ '/' := by
  intro t ht
  rw [splitFilterComps, List.mem_filter] at ht
  obtain ⟨hmem, hcond⟩ := ht
  refine ⟨?_, splitSlash_sep_free s t hmem⟩
  constructor
  · intro h; subst h; simp at hcond
  · intro h; subst h; simp at hcond

theorem splitFilterComps_root_join (cs : List String)
    (h : ∀ t ∈ cs, t ≠ "" ∧ t ≠ "." ∧ ∀ c ∈ t.data, c ≠ '/') :
    splitFilterComps ("/" ++ joinSlash cs) = cs := by
  cases cs with
  | nil => decide
  | cons hd tl =>
    rw [splitFilterComps, splitSlash, data_slash_append]
    have : splitSlashAux [] ('/' :: (joinSlash (hd :: tl)).data) =
        ⟨[]⟩ :: splitSlashAux [] (joinSlash (hd :: tl)).data := by
      rw [splitSlashAux, if_pos rfl]
      simp
    rw [this, splitSlash_joinSlash tl hd (fun t ht => (h t ht).2.2)]
    rw [List.filter]
    simp only [show ((⟨[]⟩ : String) != "" && (⟨[]⟩ : String) != ".") = false from rfl]
    rw [List.filter_eq_self.mpr]
    intro t ht
    obtain ⟨h1, h2, _⟩ := h t ht
    simp [h1, h2]

/-! ### Structure of `normpath` output -/

theorem normpathFold_good (ini : Nat) :
    ∀ (comps acc : List String),
    (∀ t ∈ comps, ∀ c ∈ t.data, c ≠ '/') →
    (∀ t ∈ acc, t ≠ "" ∧ t ≠ "." ∧ ∀ c ∈ t.data, c ≠ '/') →
    ∀ t ∈ comps.foldl (normpathFold ini) acc,
      t ≠ "" ∧ t ≠ "." ∧ ∀ c ∈ t.data, c ≠ '/' := by
  intro comps
  induction comps with
  | nil => intro acc _ hacc t ht; exact hacc t ht
  | cons comp cs ih =>
    intro acc hcomps hacc t ht
    rw [List.foldl_cons] at ht
    refine ih (normpathFold ini acc comp)
      (fun u hu => hcomps u (by simp [hu])) ?_ t ht
    intro u hu
    rw [normpathFold] at hu
    by_cases h1 : comp = "" ∨ comp = "."
    · rw [if_pos h1] at hu; exact hacc u hu
    · rw [if_neg h1] at hu
      by_cases h2 : comp ≠ ".." ∨ (ini = 0 ∧ acc = []) ∨ acc.getLast? = some ".."
      · rw [if_pos h2] at hu
        rcases List.mem_append.mp hu with h | h
        · exact hacc u h
        · have : u = comp := by simpa using h
          subst this
          push_neg at h1
          exact ⟨h1.1, h1.2, hcomps u (by simp)⟩
      · rw [if_neg h2] at hu
        exact hacc u (List.dropLast_subset acc hu)

theorem normpath_structure (s : String)
    (h1 : strStartsWith "/" s = true) (h2 : strStartsWith "//" s = false) :
    ∃ nc, (∀ t ∈ nc, t ≠ "" ∧ t ≠ "." ∧ ∀ c ∈ t.data, c ≠ '/') ∧
      normpath s = "/" ++ joinSlash nc := by
  obtain ⟨t, ht⟩ := strStartsWith_slash_iff.mp h1
  have hne : s ≠ "" := by
    intro h; rw [h] at ht; exact absurd ht (by simp [show ("" : String).data = [] from rfl])
  have hini : normpathInitialSlashes s = 1 := by
    rw [normpathInitialSlashes, if_pos h1, if_neg]
    intro hcon
    rw [h2] at hcon
    exact absurd hcon.1 (by simp)
  refine ⟨(splitSlash s).foldl (normpathFold 1) [], ?_, ?_⟩
  · exact normpathFold_good 1 (splitSlash s) []
      (fun u hu => splitSlash_sep_free s u hu) (by simp)
  · rw [normpath, if_neg hne]
    simp only [hini]
    rw [if_neg]
    · rfl
    · intro hcon
      have hdata : '/' :: (joinSlash ((splitSlash s).foldl (normpathFold 1) [])).data =
          ([] : List Char) := congrArg String.data hcon
      simp at hdata

theorem normpath_reconstruct (s : String)
    (h1 : strStartsWith "/" s = true) (h2 : strStartsWith "//" s = false) :
    normpath s = "/" ++ joinSlash (splitFilterComps (normpath s)) := by
  obtain ⟨nc, hgood, heq⟩ := normpath_structure s h1 h2
  rw [heq, splitFilterComps_root_join nc hgood]

theorem normpath_isAbs (s : String) (h : strStartsWith "/" s = true) :
    strStartsWith "/" (normpath s) = true := by
  obtain ⟨t, ht⟩ := strStartsWith_slash_iff.mp h
  have hne : s ≠ "" := by
    intro hc; rw [hc] at ht; exact absurd ht (by simp [show ("" : String).data = [] from rfl])
  have hini : normpathInitialSlashes s = 1 ∨ normpathInitialSlashes s = 2 := by
    rw [normpathInitialSlashes, if_pos h]
    by_cases hc : strStartsWith "//" s = true ∧ ¬ strStartsWith "///" s = true
    · rw [if_pos hc]; right; rfl
    · rw [if_neg hc]; left; rfl
  rw [normpath, if_neg hne]
  set nc := (splitSlash s).foldl (normpathFold (normpathInitialSlashes s)) [] with hnc
  have hdata : ∃ u, (slashesStr (normpathInitialSlashes s) ++ joinSlash nc).data = '/' :: u := by
    rcases hini with h1 | h1 <;> rw [h1]
    · exact ⟨(joinSlash nc).data, rfl⟩
    · exact ⟨'/' :: (joinSlash nc).data, rfl⟩
  obtain ⟨u, hu⟩ := hdata
  rw [if_neg (by
    intro hc
    rw [hc] at hu
    exact absurd hu (by simp [show ("" : String).data = [] from rfl]))]
  exact strStartsWith_slash_iff.mpr ⟨u, hu⟩

/-! ### Absoluteness and reconstruction of `osJoin` / `abspath` results -/

theorem data_append_str (a b : String) : (a ++ b).data = a.data ++ b.data := rfl

theorem strStartsWith_slash_append {a : String} (b : String)
    (h : strStartsWith "/" a = true) : strStartsWith "/" (a ++ b) = true := by
  obtain ⟨t, ht⟩ := strStartsWith_slash_iff.mp h
  exact strStartsWith_slash_iff.mpr ⟨t ++ b.data, by rw [data_append_str, ht]; rfl⟩

theorem osJoin_isAbs (cwd x : String) (hcwd : strStartsWith "/" cwd = true)
    (hx : strStartsWith "/" x = false) :
    strStartsWith "/" (osJoin cwd x) = true := by
  rw [osJoin]
  split
  · next h => rw [hx] at h; exact absurd h (by simp)
  · split
    · exact strStartsWith_slash_append x hcwd
    · exact strStartsWith_slash_append x (strStartsWith_slash_append "/" hcwd)

theorem abspath_isAbs (cwd x : String) (hcwd : strStartsWith "/" cwd = true) :
    strStartsWith "/" (abspath cwd x) = true := by
  rw [abspath]
  split
  · next h => exact normpath_isAbs x h
  · next h =>
    exact normpath_isAbs _ (osJoin_isAbs cwd x hcwd (by simpa using h))

theorem strEndsWith_slash_of_data {a : String} (h : a.data = ['/']) :
    strEndsWith "/" a = true := by
  have : a = "/" := String.ext (by rw [h])
  rw [this]; decide

theorem osJoin_not_dslash (cwd x : String) (hcwd : strStartsWith "/" cwd = true)
    (hcwd2 : strStartsWith "//" cwd = false) (hx : strStartsWith "/" x = false) :
    strStartsWith "//" (osJoin cwd x) = false := by
  obtain ⟨rest, hrest⟩ := strStartsWith_slash_iff.mp hcwd
  have hrest2 : rest = [] ∨ ∃ r rs, rest = r :: rs ∧ r ≠ '/' := by
    cases rest with
    | nil => left; rfl
    | cons r rs =>
      right
      refine ⟨r, rs, rfl, ?_⟩
      intro hr
      subst hr
      have : strStartsWith "//" cwd = true :=
        strStartsWith_dslash_iff.mpr ⟨rs, hrest⟩
      rw [hcwd2] at this
      exact absurd this (by simp)
  apply Bool.eq_false_iff.mpr
  intro hcon
  obtain ⟨t, ht⟩ := strStartsWith_dslash_iff.mp hcon
  rw [osJoin] at ht
  revert ht
  split
  · next h => rw [hx] at h; exact absurd h (by simp)
  · split
    · next h =>
      intro ht
      rw [data_append_str, hrest] at ht
      simp at ht
      rcases hrest2 with h0 | ⟨r, rs, hr, hrne⟩
      · subst h0
        simp at ht
        have : strStartsWith "/" x = true :=
          strStartsWith_slash_iff.mpr ⟨t, ht⟩
        rw [hx] at this
        exact absurd this (by simp)
      · subst hr
        simp at ht
        exact hrne ht.1
    · next h =>
      intro ht
      have hne : ¬ (cwd = "" ∨ strEndsWith "/" cwd = true) := by simpa using h
      rw [data_append_str, data_append_str, hrest] at ht
      simp at ht
      rcases hrest2 with h0 | ⟨r, rs, hr, hrne⟩
      · subst h0
        exact hne (Or.inr (strEndsWith_slash_of_data hrest))
      · subst hr
        simp at ht
        exact hrne ht.1

theorem abspath_reconstruct (cwd b : String)
    (hcwd : strStartsWith "/" cwd = true) (hcwd2 : strStartsWith "//" cwd = false)
    (hb : strStartsWith "//" b = false) :
    abspath cwd b = "/" ++ joinSlash (splitFilterComps (abspath cwd b)) := by
  rw [abspath]
  split
  · next h => exact normpath_reconstruct b h hb
  · next h =>
    have hx : strStartsWith "/" b = false := by simpa using h
    exact normpath_reconstruct _ (osJoin_isAbs cwd b hcwd hx)
      (osJoin_not_dslash cwd b hcwd hcwd2 hx)

/-! ### The confinement characterization -/

theorem normalize_path_eq_iff (cwd base p : String)
    (hcwd : strStartsWith "/" cwd = true) (hcwd2 : strStartsWith "//" cwd = false)
    (hbase : strStartsWith "//" base = false) :
    normalize_path cwd base p =
      if splitFilterComps (abspath cwd base) <+:
          splitFilterComps (abspath cwd (osJoin base (stripLeadingSlashes p)))
      then some (abspath cwd (osJoin base (stripLeadingSlashes p)))
      else none := by
  have hab : strStartsWith "/" (abspath cwd base) = true := abspath_isAbs cwd base hcwd
  have hau : strStartsWith "/" (abspath cwd (osJoin base (stripLeadingSlashes p))) = true :=
    abspath_isAbs cwd _ hcwd
  have hrec : abspath cwd base =
      "/" ++ joinSlash (splitFilterComps (abspath cwd base)) :=
    abspath_reconstruct cwd base hcwd hcwd2 hbase
  set A := splitFilterComps (abspath cwd base) with hA
  set U := splitFilterComps (abspath cwd (osJoin base (stripLeadingSlashes p))) with hU
  have hgoodA : ∀ s ∈ A, s ≠ "" ∧ ∀ c ∈ s.data, c ≠ '/' := by
    intro s hs
    obtain ⟨⟨h1, _⟩, h2⟩ := splitFilterComps_good _ s hs
    exact ⟨h1, h2⟩
  rw [normalize_path, commonpath2, if_neg (by rw [hab, hau]; simp), if_pos (by rw [hab])]
  by_cases hpre : A <+: U
  · rw [if_pos hpre]
    have hcp : commonPrefix A U = A := (commonPrefix_eq_left_iff A U).mpr hpre
    show (if "/" ++ joinSlash (commonPrefix A U) = abspath cwd base then
        some (abspath cwd (osJoin base (stripLeadingSlashes p))) else none) = _
    rw [if_pos (by rw [hcp, ← hrec])]
  · rw [if_neg hpre]
    show (if "/" ++ joinSlash (commonPrefix A U) = abspath cwd base then
        some (abspath cwd (osJoin base (stripLeadingSlashes p))) else none) = _
    rw [if_neg]
    intro hcon
    rw [hrec] at hcon
    have hjoin : joinSlash (commonPrefix A U) = joinSlash A :=
      slash_append_right_inj.mp hcon
    have hgoodC : ∀ s ∈ commonPrefix A U, s ≠ "" ∧ ∀ c ∈ s.data, c ≠ '/' :=
      fun s hs => hgoodA s (commonPrefix_mem_left A U s hs)
    have : commonPrefix A U = A := joinSlash_inj _ _ hgoodC hgoodA hjoin
    exact hpre ((commonPrefix_eq_left_iff A U).mp this)

theorem stripLeadingSlashes_idem (p : String) :
    stripLeadingSlashes (stripLeadingSlashes p) = stripLeadingSlashes p := by
  apply String.ext
  simp only [stripLeadingSlashes]
  apply List.dropWhile_idempotent

theorem normalize_path_strip (cwd base p : String) :
    normalize_path cwd base p = normalize_path cwd base (stripLeadingSlashes p) := by
  rw [normalize_path, normalize_path, stripLeadingSlashes_idem]

/-! ### Filesystem lemmas -/

theorem FS.readFile_writeFile (fs : FS) (p c : String) :
    (fs.writeFile p c).readFile p = some c := by
  rw [FS.writeFile, FS.readFile]
  show List.lookup p ((p, c) :: _) = some c
  rw [List.lookup]
  simp

theorem FS.isfile_writeFile (fs : FS) (p c : String) :
    (fs.writeFile p c).isfile p = true := by
  rw [FS.isfile, show (fs.writeFile p c).files.lookup p = (fs.writeFile p c).readFile p from rfl,
    FS.readFile_writeFile]
  rfl

theorem lookup_filter_ne (p : String) :
    ∀ (l : List (String × String)),
    (l.filter (fun kv => kv.1 != p)).lookup p = none := by
  intro l
  induction l with
  | nil => rfl
  | cons kv l ih =>
    by_cases h : kv.1 = p
    · rw [List.filter_cons, if_neg (by simp [h])]
      exact ih
    · rw [List.filter_cons, if_pos (by simp [h])]
      have hbe : (p == kv.1) = false := by
        simp
        exact fun hc => h hc.symm
      rw [List.lookup, hbe]
      exact ih

theorem FS.isfile_removeFile (fs : FS) (p : String) :
    (fs.removeFile p).isfile p = false := by
  rw [FS.isfile, FS.removeFile]
  show (List.lookup p (fs.files.filter (fun kv => kv.1 != p))).isSome = false
  rw [lookup_filter_ne]
  rfl

theorem FS.isfile_makedirs (fs : FS) (d p : String) :
    (fs.makedirs d).isfile p = fs.isfile p := rfl

/-! ### Order facts about the Python string comparison and `sortStrings` -/

theorem charsLt_asymm : ∀ {a b : List Char}, charsLt a b = true → charsLt b a = false := by
  intro a
  induction a with
  | nil =>
    intro b h
    cases b with
    | nil => simp [charsLt] at h
    | cons y ys => simp [charsLt]
  | cons x xs ih =>
    intro b h
    cases b with
    | nil => simp [charsLt] at h
    | cons y ys =>
      rw [charsLt] at h ⊢
      by_cases hxy : x < y
      · rw [if_neg (lt_asymm hxy), if_pos hxy]
      · rw [if_neg hxy] at h
        by_cases hyx : y < x
        · rw [if_pos hyx] at h; exact absurd h (by simp)
        · rw [if_neg hyx] at h
          rw [if_neg hyx, if_neg hxy]
          exact ih h

theorem charsLt_negtrans : ∀ (a b c : List Char),
    charsLt a b = false → charsLt b c = false → charsLt a c = false := by
  intro a
  induction a with
  | nil =>
    intro b c hab hbc
    cases c with
    | nil => rfl
    | cons z zs =>
      cases b with
      | nil => simp [charsLt] at hbc
      | cons y ys => simp [charsLt] at hab
  | cons x xs ih =>
    intro b c hab hbc
    cases c with
    | nil => rfl
    | cons z zs =>
      cases b with
      | nil => simp [charsLt] at hbc
      | cons y ys =>
        rw [charsLt] at hab hbc ⊢
        by_cases hxy : x < y
        · rw [if_pos hxy] at hab; exact absurd hab (by simp)
        · rw [if_neg hxy] at hab
          by_cases hyz : y < z
          · rw [if_pos hyz] at hbc; exact absurd hbc (by simp)
          · rw [if_neg hyz] at hbc
            by_cases hyx : y < x
            · by_cases hzy : z < y
              · have hzx : z < x := lt_trans hzy hyx
                rw [if_neg (lt_asymm hzx), if_pos hzx]
              · have hyz_eq : y = z := le_antisymm (not_lt.mp hzy) (not_lt.mp hyz)
                subst hyz_eq
                rw [if_neg hxy, if_pos hyx]
            · have hxy_eq : x = y := le_antisymm (not_lt.mp hyx) (not_lt.mp hxy)
              subst hxy_eq
              rw [if_neg hyx] at hab
              by_cases hzx : z < x
              · rw [if_neg hyz, if_pos hzx]
              · rw [if_neg hyz, if_neg hzx]
                exact ih ys zs hab (by rwa [if_neg hzx] at hbc)

theorem insertSorted_perm (s : String) :
    ∀ l : List String, List.Perm (insertSorted s l) (s :: l) := by
  intro l
  induction l with
  | nil => rfl
  | cons x xs ih =>
    rw [insertSorted]
    by_cases hx : pyStrLt x s = true
    · rw [if_pos hx]
      exact ((ih.cons x).trans (List.Perm.swap s x xs))
    · rw [if_neg hx]

theorem sortStrings_perm : ∀ l : List String, List.Perm (sortStrings l) l := by
  intro l
  induction l with
  | nil => rfl
  | cons x xs ih =>
    exact (insertSorted_perm x (sortStrings xs)).trans (ih.cons x)

theorem insertSorted_pairwise (s : String) (l : List String)
    (h : List.Pairwise (fun a b => pyStrLt b a = false) l) :
    List.Pairwise (fun a b => pyStrLt b a = false) (insertSorted s l) := by
  induction l with
  | nil => simp [insertSorted]
  | cons x xs ih =>
    rw [insertSorted]
    obtain ⟨hxall, hxs⟩ := List.pairwise_cons.mp h
    by_cases hx : pyStrLt x s = true
    · rw [if_pos hx]
      apply List.pairwise_cons.mpr
      constructor
      · intro y hy
        rcases List.mem_cons.mp ((insertSorted_perm s xs).mem_iff.mp hy) with hys | hmem
        · subst hys
          exact charsLt_asymm hx
        · exact hxall y hmem
      · exact ih hxs
    · rw [if_neg hx]
      have hx' : pyStrLt x s = false := by
        revert hx; cases pyStrLt x s <;> simp
      apply List.pairwise_cons.mpr
      refine ⟨?_, h⟩
      intro y hy
      rcases List.mem_cons.mp hy with hyx | hmem
      · subst hyx; exact hx'
      · exact charsLt_negtrans y.data x.data s.data (hxall y hmem) hx'

theorem sortStrings_pairwise : ∀ l : List String,
    List.Pairwise (fun a b => pyStrLt b a = false) (sortStrings l) := by
  intro l
  induction l with
  | nil => simp [sortStrings]
  | cons x xs ih => exact insertSorted_pairwise x (sortStrings xs) ih

/-- The filtered list of direct-child note names that `tool_list_notes`
enumerates for a resolved directory path. -/
def listedNotes (fs : FS) (dp : String) : List String :=
  (fs.listdir dp).filter
    (fun note => strEndsWith NOTE_EXTENSION note && !strStartsWith "." note)

/-! ### Claim theorems -/

/-- C1: `_normalize_path(r, p)` first strips all leading `'/'` characters
from `p`, and accepts (returning the canonical absolute joined path) iff the
canonical absolute form of the join of `r` and the stripped `p` has the
canonical absolute form of `r` as a segment-aligned path prefix (equality
included); every `p` that canonicalizes outside `r` — leading slashes,
embedded `..` segments, and sibling-name cases like `../notes-evil/x`
against `/notes` — is rejected with `None`, and every note/asset operation
refuses such a path with a confinement error before touching the
filesystem.  (`cwd` is `os.getcwd()`, an absolute canonical path; roots of
the POSIX-implementation-defined `//`-form are excluded.) -/
theorem normalize_path_confinement (cwd base p : String)
    (hcwd : strStartsWith "/" cwd = true)
    (hcwd2 : strStartsWith "//" cwd = false)
    (hbase : strStartsWith "//" base = false) :
    (normalize_path cwd base p =
      if splitFilterComps (abspath cwd base) <+:
          splitFilterComps (abspath cwd (osJoin base (stripLeadingSlashes p)))
      then some (abspath cwd (osJoin base (stripLeadingSlashes p)))
      else none)
    ∧ normalize_path cwd base p = normalize_path cwd base (stripLeadingSlashes p)
    ∧ normalize_path "/" "/notes" "../notes-evil/x" = none
    ∧ normalize_path "/" "/notes" "////../../etc/passwd" = none
    ∧ (∀ fs content, normalize_path cwd base (withNoteExt p) = none →
        tool_create_or_update_note cwd base fs p content =
          .error "Path is not within the notes directory")
    ∧ (∀ fs, normalize_path cwd base (withNoteExt p) = none →
        tool_delete_note cwd base fs p =
          .error "Path is not within the notes directory")
    ∧ (∀ fs, normalize_path cwd base (withNoteExt p) = none →
        tool_read_note cwd base fs p =
          .error "Path is not within the notes directory")
    ∧ (∀ fs ds, normalize_path cwd base p = none →
        tool_list_notes cwd base fs p ds =
          .error "Path is not within the notes directory")
    ∧ (∀ fs content, normalize_path cwd base p = none →
        tool_upload_picture cwd base fs p content =
          .error "Path is not within the notes directory")
    ∧ (∀ fs uri, strStartsWith NOTE_URI_PREFIX uri = true →
        normalize_path cwd base (withNoteExt (pyDrop NOTE_URI_PREFIX.length uri)) = none →
        resource_template_notes cwd base fs uri =
          .error "Path is not within the notes directory") := by
  refine ⟨normalize_path_eq_iff cwd base p hcwd hcwd2 hbase,
    normalize_path_strip cwd base p, by decide, by decide, ?_, ?_, ?_, ?_, ?_, ?_⟩
  · intro fs content h
    simp [tool_create_or_update_note, h]
  · intro fs h
    simp [tool_delete_note, h]
  · intro fs h
    simp [tool_read_note, h]
  · intro fs ds h
    simp [tool_list_notes, h]
  · intro fs content h
    simp [tool_upload_picture, h]
  · intro fs uri hpre h
    simp [resource_template_notes, hpre, h]

/-- Witness for C1 at `cwd = "/"`, `base = "/notes"`, `p = "a.md"`. -/
theorem normalize_path_confinement_witness :
    (strStartsWith "/" "/" = true ∧ strStartsWith "//" "/" = false ∧
      strStartsWith "//" "/notes" = false) ∧
    ((normalize_path "/" "/notes" "a.md" =
      if splitFilterComps (abspath "/" "/notes") <+:
          splitFilterComps (abspath "/" (osJoin "/notes" (stripLeadingSlashes "a.md")))
      then some (abspath "/" (osJoin "/notes" (stripLeadingSlashes "a.md")))
      else none)
    ∧ normalize_path "/" "/notes" "a.md" =
        normalize_path "/" "/notes" (stripLeadingSlashes "a.md")
    ∧ normalize_path "/" "/notes" "../notes-evil/x" = none
    ∧ normalize_path "/" "/notes" "////../../etc/passwd" = none
    ∧ (∀ fs content, normalize_path "/" "/notes" (withNoteExt "a.md") = none →
        tool_create_or_update_note "/" "/notes" fs "a.md" content =
          .error "Path is not within the notes directory")
    ∧ (∀ fs, normalize_path "/" "/notes" (withNoteExt "a.md") = none →
        tool_delete_note "/" "/notes" fs "a.md" =
          .error "Path is not within the notes directory")
    ∧ (∀ fs, normalize_path "/" "/notes" (withNoteExt "a.md") = none →
        tool_read_note "/" "/notes" fs "a.md" =
          .error "Path is not within the notes directory")
    ∧ (∀ fs ds, normalize_path "/" "/notes" "a.md" = none →
        tool_list_notes "/" "/notes" fs "a.md" ds =
          .error "Path is not within the notes directory")
    ∧ (∀ fs content, normalize_path "/" "/notes" "a.md" = none →
        tool_upload_picture "/" "/notes" fs "a.md" content =
          .error "Path is not within the notes directory")
    ∧ (∀ fs uri, strStartsWith NOTE_URI_PREFIX uri = true →
        normalize_path "/" "/notes"
          (withNoteExt (pyDrop NOTE_URI_PREFIX.length uri)) = none →
        resource_template_notes "/" "/notes" fs uri =
          .error "Path is not within the notes directory")) :=
  ⟨⟨by decide, by decide, by decide⟩,
    normalize_path_confinement "/" "/notes" "a.md" (by decide) (by decide) (by decide)⟩

/-- C3: for every note path accepted by confinement and every content
string, `tool_create_or_update_note(p, c)` succeeds and a subsequent
`tool_read_note` on the same logical path returns exactly `c` (the write is
a full overwrite, so this holds for an arbitrary prior filesystem state,
including one where a note already exists at `p`). -/
theorem create_then_read_roundtrip (cwd notesDir : String) (fs : FS)
    (p c np : String)
    (h : normalize_path cwd notesDir (withNoteExt p) = some np) :
    tool_create_or_update_note cwd notesDir fs p c =
      .ok ((fs.makedirs (dirname np)).writeFile np c,
        [if !(fs.makedirs (dirname np)).isfile np then
            (⟨LogLevel.notice, "Created a new Markdown note"⟩ : LogEvent)
          else ⟨LogLevel.notice, "Updated a Markdown note"⟩],
        { uri := NOTE_URI_PREFIX ++ "/" ++ withNoteExt p
          name := withNoteExt p
          description :=
            (if !(fs.makedirs (dirname np)).isfile np then "Created" else "Updated") ++
              " a Markdown note"
          mimeType := NOTE_MIME_TYPE })
    ∧ tool_read_note cwd notesDir ((fs.makedirs (dirname np)).writeFile np c) p =
        .ok c := by
  constructor
  · simp only [tool_create_or_update_note, h]
  · simp [tool_read_note, h, FS.isfile_writeFile, FS.readFile_writeFile]

/-- Witness for C3 at a concrete filesystem and path (prior state already
holds a different body at the same note, exercising the overwrite case). -/
theorem create_then_read_roundtrip_witness :
    normalize_path "/" "notes" (withNoteExt "a") = some "/notes/a.md" ∧
    (tool_create_or_update_note "/" "notes"
        ((initialFS "/" "notes").writeFile "/notes/a.md" "old") "a" "hello" =
      .ok ((((initialFS "/" "notes").writeFile "/notes/a.md" "old").makedirs
            (dirname "/notes/a.md")).writeFile "/notes/a.md" "hello",
        [if !(((initialFS "/" "notes").writeFile "/notes/a.md" "old").makedirs
            (dirname "/notes/a.md")).isfile "/notes/a.md" then
            (⟨LogLevel.notice, "Created a new Markdown note"⟩ : LogEvent)
          else ⟨LogLevel.notice, "Updated a Markdown note"⟩],
        { uri := NOTE_URI_PREFIX ++ "/" ++ withNoteExt "a"
          name := withNoteExt "a"
          description :=
            (if !(((initialFS "/" "notes").writeFile "/notes/a.md" "old").makedirs
                (dirname "/notes/a.md")).isfile "/notes/a.md" then "Created"
              else "Updated") ++ " a Markdown note"
          mimeType := NOTE_MIME_TYPE })
    ∧ tool_read_note "/" "notes"
        ((((initialFS "/" "notes").writeFile "/notes/a.md" "old").makedirs
          (dirname "/notes/a.md")).writeFile "/notes/a.md" "hello") "a" =
        .ok "hello") :=
  ⟨by decide,
    create_then_read_roundtrip "/" "notes"
      ((initialFS "/" "notes").writeFile "/notes/a.md" "old") "a" "hello"
      "/notes/a.md" (by decide)⟩

/-- C4: `tool_create_or_update_note` reports "created" exactly when no file
existed at the resolved path immediately before the write (existence is
checked before writing; `makedirs` does not change files), and "updated"
otherwise — in the returned link's description and in the logged event. -/
theorem create_reports_created_iff_new (cwd notesDir : String) (fs : FS)
    (p c np : String)
    (h : normalize_path cwd notesDir (withNoteExt p) = some np) :
    (fs.isfile np = false →
      tool_create_or_update_note cwd notesDir fs p c =
        .ok ((fs.makedirs (dirname np)).writeFile np c,
          [⟨LogLevel.notice, "Created a new Markdown note"⟩],
          { uri := NOTE_URI_PREFIX ++ "/" ++ withNoteExt p
            name := withNoteExt p
            description := "Created a Markdown note"
            mimeType := NOTE_MIME_TYPE }))
    ∧ (fs.isfile np = true →
      tool_create_or_update_note cwd notesDir fs p c =
        .ok ((fs.makedirs (dirname np)).writeFile np c,
          [⟨LogLevel.notice, "Updated a Markdown note"⟩],
          { uri := NOTE_URI_PREFIX ++ "/" ++ withNoteExt p
            name := withNoteExt p
            description := "Updated a Markdown note"
            mimeType := NOTE_MIME_TYPE })) := by
  constructor
  · intro hnew
    simp only [tool_create_or_update_note, h, FS.isfile_makedirs, hnew]
    rfl
  · intro hold
    simp only [tool_create_or_update_note, h, FS.isfile_makedirs, hold]
    rfl

/-- Witness for C4: on the fresh store the note does not exist yet, and
after one write it does. -/
theorem create_reports_created_iff_new_witness :
    normalize_path "/" "notes" (withNoteExt "a") = some "/notes/a.md" ∧
    (((initialFS "/" "notes").isfile "/notes/a.md" = false →
      tool_create_or_update_note "/" "notes" (initialFS "/" "notes") "a" "c1" =
        .ok (((initialFS "/" "notes").makedirs (dirname "/notes/a.md")).writeFile "/notes/a.md" "c1",
          [⟨LogLevel.notice, "Created a new Markdown note"⟩],
          { uri := NOTE_URI_PREFIX ++ "/" ++ withNoteExt "a"
            name := withNoteExt "a"
            description := "Created a Markdown note"
            mimeType := NOTE_MIME_TYPE }))
    ∧ ((initialFS "/" "notes").isfile "/notes/a.md" = true →
      tool_create_or_update_note "/" "notes" (initialFS "/" "notes") "a" "c1" =
        .ok (((initialFS "/" "notes").makedirs (dirname "/notes/a.md")).writeFile "/notes/a.md" "c1",
          [⟨LogLevel.notice, "Updated a Markdown note"⟩],
          { uri := NOTE_URI_PREFIX ++ "/" ++ withNoteExt "a"
            name := withNoteExt "a"
            description := "Updated a Markdown note"
            mimeType := NOTE_MIME_TYPE }))) :=
  ⟨by decide,
    create_reports_created_iff_new "/" "notes" (initialFS "/" "notes") "a" "c1"
      "/notes/a.md" (by decide)⟩

/-- C5: deleting a note that does not exist fails with the not-found error
(leaving the filesystem untouched — an error result carries no new state),
and a successful delete followed by a read of the same path fails with the
not-found error. -/
theorem delete_notfound_spec (cwd notesDir : String) (fs : FS) (p np : String)
    (h : normalize_path cwd notesDir (withNoteExt p) = some np) :
    (fs.isfile np = false →
      tool_delete_note cwd notesDir fs p =
        .error ("Note '" ++ withNoteExt p ++
          "' does not exist. Use 'list_notes' to see available notes."))
    ∧ (∀ fs' logs msg,
        tool_delete_note cwd notesDir fs p = .ok (fs', logs, msg) →
        tool_read_note cwd notesDir fs' p =
          .error ("Note '" ++ withNoteExt p ++
            "' does not exist. Use 'list_notes' to see available notes.")) := by
  constructor
  · intro habs
    simp [tool_delete_note, h, habs]
  · intro fs' logs msg hok
    by_cases hex : fs.isfile np
    · simp only [tool_delete_note, h, hex, Bool.not_true, Bool.false_eq_true,
        if_false, Except.ok.injEq, Prod.mk.injEq] at hok
      obtain ⟨hfs, -, -⟩ := hok
      subst hfs
      simp [tool_read_note, h, FS.isfile_removeFile]
    · simp [tool_delete_note, h, hex] at hok

/-- Output shape of `tool_list_notes` (with `directories = False`) on an
existing directory, in terms of `listedNotes`. -/
theorem tool_list_notes_eq (cwd notesDir : String) (fs : FS) (d dp : String)
    (h : normalize_path cwd notesDir d = some dp) (hdir : fs.isdir dp = true) :
    tool_list_notes cwd notesDir fs d false =
      .ok (MCPResult.text
          (if (listedNotes fs dp).length = 0 then
            "No Markdown notes found in " ++
              (if d = "" then "root directory" else "directory '" ++ d ++ "'") ++ ".\n"
          else
            "Found " ++ toString (listedNotes fs dp).length ++ " note" ++
              (if (listedNotes fs dp).length ≠ 1 then "s" else "") ++ " in " ++
              (if d = "" then "root directory" else "directory '" ++ d ++ "'") ++
              ":\n\n" ++
              String.join ((sortStrings (listedNotes fs dp)).map
                (fun note => " * `" ++ note ++ "`\n"))) ::
        (sortStrings (listedNotes fs dp)).map (fun note => MCPResult.link
          { uri := (if d ≠ "" then NOTE_URI_PREFIX ++ "/" ++ d else NOTE_URI_PREFIX) ++
              "/" ++ note
            name := (if d ≠ "" then d ++ "/" else "") ++ note
            description := "Markdown note: " ++ ((if d ≠ "" then d ++ "/" else "") ++ note)
            mimeType := NOTE_MIME_TYPE })) := by
  simp only [tool_list_notes, h, hdir, listedNotes, Bool.not_true, Bool.false_eq_true,
    if_false, Bool.not_eq_true]
  rfl

/-- Witness for C5 on a concrete store containing one note. -/
theorem delete_notfound_spec_witness :
    normalize_path "/" "notes" (withNoteExt "a") = some "/notes/a.md" ∧
    ((((initialFS "/" "notes").writeFile "/notes/a.md" "x").isfile "/notes/a.md" = false →
      tool_delete_note "/" "notes" ((initialFS "/" "notes").writeFile "/notes/a.md" "x") "a" =
        .error ("Note '" ++ withNoteExt "a" ++
          "' does not exist. Use 'list_notes' to see available notes."))
    ∧ (∀ fs' logs msg,
        tool_delete_note "/" "notes" ((initialFS "/" "notes").writeFile "/notes/a.md" "x") "a" =
          .ok (fs', logs, msg) →
        tool_read_note "/" "notes" fs' "a" =
          .error ("Note '" ++ withNoteExt "a" ++
            "' does not exist. Use 'list_notes' to see available notes."))) :=
  ⟨by decide,
    delete_notfound_spec "/" "notes" ((initialFS "/" "notes").writeFile "/notes/a.md" "x")
      "a" "/notes/a.md" (by decide)⟩

/-- C6: `tool_list_notes(d)` enumerates only direct children ending in
`.md` and not starting with `.` (no recursion), sorted lexicographically by
code points; the summary says "1 note" for exactly one note, "N notes" for
any other non-zero count, and a distinct "No Markdown notes found" message
for zero; in particular `list("")` after creating `x.md` and `y/z.md`
returns exactly `x.md` with singular phrasing. -/
theorem list_notes_phrasing (cwd notesDir : String) (fs : FS) (d dp : String)
    (h : normalize_path cwd notesDir d = some dp)
    (hdir : fs.isdir dp = true) :
    (listedNotes fs dp = [] →
      tool_list_notes cwd notesDir fs d false =
        .ok [MCPResult.text ("No Markdown notes found in " ++
          (if d = "" then "root directory" else "directory '" ++ d ++ "'") ++ ".\n")])
    ∧ ((listedNotes fs dp).length = 1 →
      tool_list_notes cwd notesDir fs d false =
        .ok (MCPResult.text ("Found 1 note in " ++
            (if d = "" then "root directory" else "directory '" ++ d ++ "'") ++
            ":\n\n" ++ String.join ((sortStrings (listedNotes fs dp)).map
              (fun note => " * `" ++ note ++ "`\n"))) ::
          (sortStrings (listedNotes fs dp)).map (fun note => MCPResult.link
            { uri := (if d ≠ "" then NOTE_URI_PREFIX ++ "/" ++ d else NOTE_URI_PREFIX) ++
                "/" ++ note
              name := (if d ≠ "" then d ++ "/" else "") ++ note
              description := "Markdown note: " ++ ((if d ≠ "" then d ++ "/" else "") ++ note)
              mimeType := NOTE_MIME_TYPE })))
    ∧ (2 ≤ (listedNotes fs dp).length →
      tool_list_notes cwd notesDir fs d false =
        .ok (MCPResult.text ("Found " ++ toString (listedNotes fs dp).length ++
            " notes in " ++
            (if d = "" then "root directory" else "directory '" ++ d ++ "'") ++
            ":\n\n" ++ String.join ((sortStrings (listedNotes fs dp)).map
              (fun note => " * `" ++ note ++ "`\n"))) ::
          (sortStrings (listedNotes fs dp)).map (fun note => MCPResult.link
            { uri := (if d ≠ "" then NOTE_URI_PREFIX ++ "/" ++ d else NOTE_URI_PREFIX) ++
                "/" ++ note
              name := (if d ≠ "" then d ++ "/" else "") ++ note
              description := "Markdown note: " ++ ((if d ≠ "" then d ++ "/" else "") ++ note)
              mimeType := NOTE_MIME_TYPE })))
    ∧ List.Pairwise (fun a b => pyStrLt b a = false) (sortStrings (listedNotes fs dp))
    ∧ List.Perm (sortStrings (listedNotes fs dp)) (listedNotes fs dp)
    ∧ (tool_create_or_update_note "/" "notes" (initialFS "/" "notes") "x.md" "HX" =
        .ok (⟨[("/notes/x.md", "HX")], ["/notes"]⟩,
          [⟨LogLevel.notice, "Created a new Markdown note"⟩],
          ⟨"note:///x.md", "x.md", "Created a Markdown note", "text/markdown"⟩))
    ∧ (tool_create_or_update_note "/" "notes" ⟨[("/notes/x.md", "HX")], ["/notes"]⟩
          "y/z.md" "HZ" =
        .ok (⟨[("/notes/y/z.md", "HZ"), ("/notes/x.md", "HX")], ["/notes", "/notes/y"]⟩,
          [⟨LogLevel.notice, "Created a new Markdown note"⟩],
          ⟨"note:///y/z.md", "y/z.md", "Created a Markdown note", "text/markdown"⟩))
    ∧ (tool_list_notes "/" "notes"
          ⟨[("/notes/y/z.md", "HZ"), ("/notes/x.md", "HX")], ["/notes", "/notes/y"]⟩
          "" false =
        .ok [MCPResult.text "Found 1 note in root directory:\n\n * `x.md`\n",
          MCPResult.link ⟨"note:///x.md", "x.md", "Markdown note: x.md",
            "text/markdown"⟩]) := by
  refine ⟨?_, ?_, ?_, sortStrings_pairwise _, sortStrings_perm _,
    by decide, by decide, by decide⟩
  · intro h0
    rw [tool_list_notes_eq cwd notesDir fs d dp h hdir, h0]
    simp [sortStrings]
  · intro h1
    rw [tool_list_notes_eq cwd notesDir fs d dp h hdir, h1]
    norm_num
    rw [show ((("Found " ++ toString (1 : Nat)) ++ " note") ++ " in ") =
      ("Found 1 note in " : String) from by decide]
  · intro h2
    rw [tool_list_notes_eq cwd notesDir fs d dp h hdir,
      if_neg (by omega : ¬ (listedNotes fs dp).length = 0),
      if_pos (by omega : (listedNotes fs dp).length ≠ 1)]
    have hx : ∀ Y : String, Y ++ " note" ++ "s" ++ " in " = Y ++ " notes in " := by
      intro Y
      apply String.ext
      show ((Y.data ++ " note".data) ++ "s".data) ++ " in ".data =
        Y.data ++ " notes in ".data
      rw [List.append_assoc, List.append_assoc]
      congr 1
    rw [hx]

/-- Witness for C6 at the spec's own scenario (`x.md` and `y/z.md` created,
listing the root). -/
theorem list_notes_phrasing_witness :
    (normalize_path "/" "notes" "" = some "/notes" ∧
      FS.isdir ⟨[("/notes/y/z.md", "HZ"), ("/notes/x.md", "HX")],
        ["/notes", "/notes/y"]⟩ "/notes" = true) ∧
    ((listedNotes ⟨[("/notes/y/z.md", "HZ"), ("/notes/x.md", "HX")],
        ["/notes", "/notes/y"]⟩ "/notes" = [] →
      tool_list_notes "/" "notes" ⟨[("/notes/y/z.md", "HZ"), ("/notes/x.md", "HX")],
          ["/notes", "/notes/y"]⟩ "" false =
        .ok [MCPResult.text ("No Markdown notes found in " ++
          (if "" = "" then "root directory" else "directory '" ++ "" ++ "'") ++ ".\n")])
    ∧ ((listedNotes ⟨[("/notes/y/z.md", "HZ"), ("/notes/x.md", "HX")],
        ["/notes", "/notes/y"]⟩ "/notes").length = 1 →
      tool_list_notes "/" "notes" ⟨[("/notes/y/z.md", "HZ"), ("/notes/x.md", "HX")],
          ["/notes", "/notes/y"]⟩ "" false =
        .ok (MCPResult.text ("Found 1 note in " ++
            (if "" = "" then "root directory" else "directory '" ++ "" ++ "'") ++
            ":\n\n" ++ String.join ((sortStrings (listedNotes
              ⟨[("/notes/y/z.md", "HZ"), ("/notes/x.md", "HX")],
                ["/notes", "/notes/y"]⟩ "/notes")).map
              (fun note => " * `" ++ note ++ "`\n"))) ::
          (sortStrings (listedNotes ⟨[("/notes/y/z.md", "HZ"), ("/notes/x.md", "HX")],
              ["/notes", "/notes/y"]⟩ "/notes")).map (fun note => MCPResult.link
            { uri := (if "" ≠ "" then NOTE_URI_PREFIX ++ "/" ++ "" else NOTE_URI_PREFIX) ++
                "/" ++ note
              name := (if "" ≠ "" then "" ++ "/" else "") ++ note
              description := "Markdown note: " ++ ((if "" ≠ "" then "" ++ "/" else "") ++ note)
              mimeType := NOTE_MIME_TYPE })))
    ∧ (2 ≤ (listedNotes ⟨[("/notes/y/z.md", "HZ"), ("/notes/x.md", "HX")],
        ["/notes", "/notes/y"]⟩ "/notes").length →
      tool_list_notes "/" "notes" ⟨[("/notes/y/z.md", "HZ"), ("/notes/x.md", "HX")],
          ["/notes", "/notes/y"]⟩ "" false =
        .ok (MCPResult.text ("Found " ++ toString (listedNotes
            ⟨[("/notes/y/z.md", "HZ"), ("/notes/x.md", "HX")],
              ["/notes", "/notes/y"]⟩ "/notes").length ++
            " notes in " ++
            (if "" = "" then "root directory" else "directory '" ++ "" ++ "'") ++
            ":\n\n" ++ String.join ((sortStrings (listedNotes
              ⟨[("/notes/y/z.md", "HZ"), ("/notes/x.md", "HX")],
                ["/notes", "/notes/y"]⟩ "/notes")).map
              (fun note => " * `" ++ note ++ "`\n"))) ::
          (sortStrings (listedNotes ⟨[("/notes/y/z.md", "HZ"), ("/notes/x.md", "HX")],
              ["/notes", "/notes/y"]⟩ "/notes")).map (fun note => MCPResult.link
            { uri := (if "" ≠ "" then NOTE_URI_PREFIX ++ "/" ++ "" else NOTE_URI_PREFIX) ++
                "/" ++ note
              name := (if "" ≠ "" then "" ++ "/" else "") ++ note
              description := "Markdown note: " ++ ((if "" ≠ "" then "" ++ "/" else "") ++ note)
              mimeType := NOTE_MIME_TYPE })))
    ∧ List.Pairwise (fun a b => pyStrLt b a = false)
        (sortStrings (listedNotes ⟨[("/notes/y/z.md", "HZ"), ("/notes/x.md", "HX")],
          ["/notes", "/notes/y"]⟩ "/notes"))
    ∧ List.Perm (sortStrings (listedNotes ⟨[("/notes/y/z.md", "HZ"), ("/notes/x.md", "HX")],
          ["/notes", "/notes/y"]⟩ "/notes"))
        (listedNotes ⟨[("/notes/y/z.md", "HZ"), ("/notes/x.md", "HX")],
          ["/notes", "/notes/y"]⟩ "/notes")
    ∧ (tool_create_or_update_note "/" "notes" (initialFS "/" "notes") "x.md" "HX" =
        .ok (⟨[("/notes/x.md", "HX")], ["/notes"]⟩,
          [⟨LogLevel.notice, "Created a new Markdown note"⟩],
          ⟨"note:///x.md", "x.md", "Created a Markdown note", "text/markdown"⟩))
    ∧ (tool_create_or_update_note "/" "notes" ⟨[("/notes/x.md", "HX")], ["/notes"]⟩
          "y/z.md" "HZ" =
        .ok (⟨[("/notes/y/z.md", "HZ"), ("/notes/x.md", "HX")], ["/notes", "/notes/y"]⟩,
          [⟨LogLevel.notice, "Created a new Markdown note"⟩],
          ⟨"note:///y/z.md", "y/z.md", "Created a Markdown note", "text/markdown"⟩))
    ∧ (tool_list_notes "/" "notes"
          ⟨[("/notes/y/z.md", "HZ"), ("/notes/x.md", "HX")], ["/notes", "/notes/y"]⟩
          "" false =
        .ok [MCPResult.text "Found 1 note in root directory:\n\n * `x.md`\n",
          MCPResult.link ⟨"note:///x.md", "x.md", "Markdown note: x.md",
            "text/markdown"⟩])) :=
  ⟨⟨by decide, by decide⟩,
    list_notes_phrasing "/" "notes"
      ⟨[("/notes/y/z.md", "HZ"), ("/notes/x.md", "HX")], ["/notes", "/notes/y"]⟩
      "" "/notes" (by decide) (by decide)⟩

/-- C9: for a URI bearing the note prefix whose confined path resolves to a
missing file, `resource_template_notes` returns the explicit absent-resource
result (`None`) with a warning-level diagnostic, not an operation error;
when the file exists it returns the URI, the note MIME type and the full
text content. -/
theorem template_missing_note_absent (cwd notesDir : String) (fs : FS)
    (uri np : String)
    (hpre : strStartsWith NOTE_URI_PREFIX uri = true)
    (h : normalize_path cwd notesDir
      (withNoteExt (pyDrop NOTE_URI_PREFIX.length uri)) = some np) :
    (fs.isfile np = false →
      resource_template_notes cwd notesDir fs uri =
        .ok ([⟨LogLevel.warning, "Note not found"⟩], none))
    ∧ (∀ content, fs.readFile np = some content →
      resource_template_notes cwd notesDir fs uri =
        .ok ([], some ⟨uri, NOTE_MIME_TYPE, content⟩)) := by
  constructor
  · intro habs
    simp [resource_template_notes, hpre, h, habs]
  · intro content hc
    have hex : fs.isfile np = true := by
      rw [FS.isfile, show fs.files.lookup np = fs.readFile np from rfl, hc]
      rfl
    simp [resource_template_notes, hpre, h, hex, hc]

/-- Witness for C9 on a store containing the note `a.md` with body `T`. -/
theorem template_missing_note_absent_witness :
    (strStartsWith NOTE_URI_PREFIX "note:///a.md" = true ∧
      normalize_path "/" "notes"
        (withNoteExt (pyDrop NOTE_URI_PREFIX.length "note:///a.md")) =
        some "/notes/a.md") ∧
    ((FS.isfile ⟨[("/notes/a.md", "T")], ["/notes"]⟩ "/notes/a.md" = false →
      resource_template_notes "/" "notes" ⟨[("/notes/a.md", "T")], ["/notes"]⟩
          "note:///a.md" =
        .ok ([⟨LogLevel.warning, "Note not found"⟩], none))
    ∧ (∀ content,
        FS.readFile ⟨[("/notes/a.md", "T")], ["/notes"]⟩ "/notes/a.md" = some content →
      resource_template_notes "/" "notes" ⟨[("/notes/a.md", "T")], ["/notes"]⟩
          "note:///a.md" =
        .ok ([], some ⟨"note:///a.md", NOTE_MIME_TYPE, content⟩))) :=
  ⟨⟨by decide, by decide⟩,
    template_missing_note_absent "/" "notes" ⟨[("/notes/a.md", "T")], ["/notes"]⟩
      "note:///a.md" "/notes/a.md" (by decide) (by decide)⟩

/-- C2 counterexample: the claim says upload of a path ending in `.jpeg`
succeeds with MIME `image/jpeg`; the code's allow-list is
`{.jpg, .png, .gif}` (no `.jpeg`), so the upload fails with the
unsupported-extension error. -/
theorem upload_jpeg_rejected_counterexample :
    tool_upload_picture "/" "notes" (initialFS "/" "notes") "pic.jpeg" "DATA" =
      .error "Unsupported picture extension. The path must end with one of: .gif, .jpg, .png" := by
  decide

/-- C2 (amended): for a confined path, upload fails with the
unsupported-extension error iff the confined path ends with none of `.jpg`,
`.png`, `.gif` (the allow-list has no `.jpeg`); on success the MIME type is
`image/png` for `.png`, `image/jpeg` for `.jpg`, `image/gif` for `.gif`;
`upload("pic.exe", data)` fails and `upload("a/pic.png", data)` succeeds
with MIME exactly `image/png`. -/
theorem upload_extension_allowlist (cwd notesDir : String) (fs : FS)
    (p content cp : String)
    (h : normalize_path cwd notesDir p = some cp) :
    (tool_upload_picture cwd notesDir fs p content =
        .error ("Unsupported picture extension. The path must end with one of: " ++
          joinComma (sortStrings PICTURE_EXTENSIONS)) ↔
      (strEndsWith ".jpg" cp = false ∧ strEndsWith ".png" cp = false ∧
        strEndsWith ".gif" cp = false))
    ∧ (strEndsWith ".png" cp = true →
      tool_upload_picture cwd notesDir fs p content =
        .ok ((fs.makedirs (dirname cp)).writeFile cp content,
          ⟨PICTURE_URI_PREFIX ++ "/" ++ cp, cp, "Uploaded image: " ++ cp, "image/png"⟩))
    ∧ (strEndsWith ".png" cp = false → strEndsWith ".jpg" cp = true →
      tool_upload_picture cwd notesDir fs p content =
        .ok ((fs.makedirs (dirname cp)).writeFile cp content,
          ⟨PICTURE_URI_PREFIX ++ "/" ++ cp, cp, "Uploaded image: " ++ cp, "image/jpeg"⟩))
    ∧ (strEndsWith ".png" cp = false → strEndsWith ".jpg" cp = false →
        strEndsWith ".gif" cp = true →
      tool_upload_picture cwd notesDir fs p content =
        .ok ((fs.makedirs (dirname cp)).writeFile cp content,
          ⟨PICTURE_URI_PREFIX ++ "/" ++ cp, cp, "Uploaded image: " ++ cp, "image/gif"⟩))
    ∧ (tool_upload_picture "/" "notes" (initialFS "/" "notes") "pic.exe" "D" =
      .error "Unsupported picture extension. The path must end with one of: .gif, .jpg, .png")
    ∧ (tool_upload_picture "/" "notes" (initialFS "/" "notes") "a/pic.png" "D" =
      .ok (⟨[("/notes/a/pic.png", "D")], ["/notes", "/notes/a"]⟩,
        ⟨"img:////notes/a/pic.png", "/notes/a/pic.png",
          "Uploaded image: /notes/a/pic.png", "image/png"⟩)) := by
  refine ⟨?_, ?_, ?_, ?_, by decide, by decide⟩
  · constructor
    · intro herr
      by_cases hjpg : strEndsWith ".jpg" cp = true
      · exfalso
        revert herr
        simp only [tool_upload_picture, h, PICTURE_EXTENSIONS]
        simp [hjpg]
        by_cases hpng : strEndsWith ".png" cp = true <;> simp [hpng]
      · by_cases hpng : strEndsWith ".png" cp = true
        · exfalso
          revert herr
          simp only [tool_upload_picture, h, PICTURE_EXTENSIONS]
          simp [hpng]
        · by_cases hgif : strEndsWith ".gif" cp = true
          · exfalso
            revert herr
            simp only [tool_upload_picture, h, PICTURE_EXTENSIONS]
            simp [hgif, hpng, hjpg]
          · refine ⟨by revert hjpg; cases strEndsWith ".jpg" cp <;> simp,
              by revert hpng; cases strEndsWith ".png" cp <;> simp,
              by revert hgif; cases strEndsWith ".gif" cp <;> simp⟩
    · rintro ⟨hjpg, hpng, hgif⟩
      simp [tool_upload_picture, h, PICTURE_EXTENSIONS, hjpg, hpng, hgif]
  · intro hpng
    simp [tool_upload_picture, h, PICTURE_EXTENSIONS, hpng]
  · intro hpng hjpg
    simp [tool_upload_picture, h, PICTURE_EXTENSIONS, hpng, hjpg]
  · intro hpng hjpg hgif
    simp [tool_upload_picture, h, PICTURE_EXTENSIONS, hpng, hjpg, hgif]

/-- Witness for C2's amended theorem at the confined path
`/notes/a/pic.png`. -/
theorem upload_extension_allowlist_witness :
    normalize_path "/" "notes" "a/pic.png" = some "/notes/a/pic.png" ∧
    ((tool_upload_picture "/" "notes" FS.empty "a/pic.png" "D" =
        .error ("Unsupported picture extension. The path must end with one of: " ++
          joinComma (sortStrings PICTURE_EXTENSIONS)) ↔
      (strEndsWith ".jpg" "/notes/a/pic.png" = false ∧
        strEndsWith ".png" "/notes/a/pic.png" = false ∧
        strEndsWith ".gif" "/notes/a/pic.png" = false))
    ∧ (strEndsWith ".png" "/notes/a/pic.png" = true →
      tool_upload_picture "/" "notes" FS.empty "a/pic.png" "D" =
        .ok ((FS.empty.makedirs (dirname "/notes/a/pic.png")).writeFile
            "/notes/a/pic.png" "D",
          ⟨PICTURE_URI_PREFIX ++ "/" ++ "/notes/a/pic.png", "/notes/a/pic.png",
            "Uploaded image: " ++ "/notes/a/pic.png", "image/png"⟩))
    ∧ (strEndsWith ".png" "/notes/a/pic.png" = false →
        strEndsWith ".jpg" "/notes/a/pic.png" = true →
      tool_upload_picture "/" "notes" FS.empty "a/pic.png" "D" =
        .ok ((FS.empty.makedirs (dirname "/notes/a/pic.png")).writeFile
            "/notes/a/pic.png" "D",
          ⟨PICTURE_URI_PREFIX ++ "/" ++ "/notes/a/pic.png", "/notes/a/pic.png",
            "Uploaded image: " ++ "/notes/a/pic.png", "image/jpeg"⟩))
    ∧ (strEndsWith ".png" "/notes/a/pic.png" = false →
        strEndsWith ".jpg" "/notes/a/pic.png" = false →
        strEndsWith ".gif" "/notes/a/pic.png" = true →
      tool_upload_picture "/" "notes" FS.empty "a/pic.png" "D" =
        .ok ((FS.empty.makedirs (dirname "/notes/a/pic.png")).writeFile
            "/notes/a/pic.png" "D",
          ⟨PICTURE_URI_PREFIX ++ "/" ++ "/notes/a/pic.png", "/notes/a/pic.png",
            "Uploaded image: " ++ "/notes/a/pic.png", "image/gif"⟩))
    ∧ (tool_upload_picture "/" "notes" (initialFS "/" "notes") "pic.exe" "D" =
      .error "Unsupported picture extension. The path must end with one of: .gif, .jpg, .png")
    ∧ (tool_upload_picture "/" "notes" (initialFS "/" "notes") "a/pic.png" "D" =
      .ok (⟨[("/notes/a/pic.png", "D")], ["/notes", "/notes/a"]⟩,
        ⟨"img:////notes/a/pic.png", "/notes/a/pic.png",
          "Uploaded image: /notes/a/pic.png", "image/png"⟩))) :=
  ⟨by decide,
    upload_extension_allowlist "/" "notes" FS.empty "a/pic.png" "D"
      "/notes/a/pic.png" (by decide)⟩

/-- C7: evaluation at the failing input.  With `includeDirectories = True`
and a visible subdirectory, the Python `for directory in sorted(dirlist):`
loop leaks its variable, so the URI/name prefix of every note link is built
from the last subdirectory name instead of the input directory: listing the
root (input directory `""`) of a store holding note `x.md` and directory
`y` yields a link named `y/x.md` with URI `note:///y/x.md`, not the
claimed input-prefix name `x.md` with URI `note:///x.md`. -/
theorem list_notes_dir_shadowing_bug :
    tool_list_notes "/" "notes" ⟨[("/notes/x.md", "hi")], ["/notes", "/notes/y"]⟩
        "" true =
      .ok [MCPResult.text
          "Found 1 note in root directory:\n\n * `x.md`\n\nFound 1 directory in root directory:\n\n * `y`\n",
        MCPResult.link ⟨"note:///y/x.md", "y/x.md", "Markdown note: y/x.md",
          "text/markdown"⟩]
    ∧ ("y/x.md" : String) ≠ "" ++ "x.md"
    ∧ ("note:///y/x.md" : String) ≠ NOTE_URI_PREFIX ++ "/" ++ "x.md" := by
  refine ⟨by decide, by decide, by decide⟩

/-- C8 counterexample: in the listAll result after creating `a.md` and
`sub/b.md`, the nested note's URI is `note:////sub/b.md` — the part after
the `note://` scheme prefix begins with a doubled separator (the relative
dirpath `root[len(NotesDirectory):]` keeps its leading `/`), and the name
is `/sub/b` with a leading separator — contradicting the claim that no URI
or display name contains a doubled or missing path separator. -/
theorem resource_list_doubled_separator_counterexample :
    (resource_list_notes "/" "notes"
        ⟨[("/notes/sub/b.md", "B"), ("/notes/a.md", "A")],
          ["/notes", "/notes/sub"]⟩).map ResourceLink.uri =
      ["note:///a.md", "note:////sub/b.md"]
    ∧ pyDrop NOTE_URI_PREFIX.length "note:////sub/b.md" = "//sub/b.md"
    ∧ strStartsWith "//" (pyDrop NOTE_URI_PREFIX.length "note:////sub/b.md") = true
    ∧ ("note:////sub/b.md" : String) ≠ "note:///sub/b.md"
    ∧ (resource_list_notes "/" "notes"
        ⟨[("/notes/sub/b.md", "B"), ("/notes/a.md", "A")],
          ["/notes", "/notes/sub"]⟩).map ResourceLink.name =
      ["a", "/sub/b"] := by
  refine ⟨by decide, by decide, by decide, by decide, by decide⟩

theorem foldl_acc_append {α β : Type} (f : α → List β) :
    ∀ (l : List α) (init : List β),
    l.foldl (fun acc e => acc ++ f e) init = init ++ l.flatMap f := by
  intro l
  induction l with
  | nil => intro init; simp
  | cons x xs ih =>
    intro init
    rw [List.foldl_cons, ih, List.flatMap_cons, List.append_assoc]

theorem pyDrop_length_self (s : String) : pyDrop s.length s = "" := by
  apply String.ext
  show s.data.drop s.data.length = []
  simp

/-- C8 (amended): `listAll` emits one link per `.md` file.  Notes sitting
directly in Root get clean links (`note:///<file>`, name = file without
extension, no spurious separator) — stated for every store; nested notes
get a relative dirpath that keeps its leading `/` from the string slicing,
so their URIs carry a doubled separator and their names a leading `/`, as
the `a.md` / `sub/b.md` scenario shows; root-level and nested notes are
still distinguished. -/
theorem resource_list_links_shape (cwd notesDir : String) (fs : FS) :
    ((fs.childFiles (abspath cwd notesDir)).filterMap (fun file =>
        if strEndsWith NOTE_EXTENSION file then
          some { uri := NOTE_URI_PREFIX ++ "/" ++ file
                 name := pyDropRight NOTE_EXTENSION.length file
                 description := "Markdown note: " ++
                   pyDropRight NOTE_EXTENSION.length file
                 mimeType := NOTE_MIME_TYPE }
        else none) <+: resource_list_notes cwd notesDir fs)
    ∧ resource_list_notes "/" "notes"
        ⟨[("/notes/sub/b.md", "B"), ("/notes/a.md", "A")],
          ["/notes", "/notes/sub"]⟩ =
      [⟨"note:///a.md", "a", "Markdown note: a", "text/markdown"⟩,
        ⟨"note:////sub/b.md", "/sub/b", "Markdown note: /sub/b",
          "text/markdown"⟩] := by
  constructor
  · rw [resource_list_notes, FS.walk]
    simp only [FS.walkAux]
    rw [foldl_acc_append]
    rw [List.nil_append, List.flatMap_cons]
    simp [pyDrop_length_self]
  · decide

/-- Witness for C8's amended theorem at the scenario store. -/
theorem resource_list_links_shape_witness :
    (((FS.childFiles ⟨[("/notes/sub/b.md", "B"), ("/notes/a.md", "A")],
          ["/notes", "/notes/sub"]⟩ (abspath "/" "notes")).filterMap (fun file =>
        if strEndsWith NOTE_EXTENSION file then
          some { uri := NOTE_URI_PREFIX ++ "/" ++ file
                 name := pyDropRight NOTE_EXTENSION.length file
                 description := "Markdown note: " ++
                   pyDropRight NOTE_EXTENSION.length file
                 mimeType := NOTE_MIME_TYPE }
        else none) <+: resource_list_notes "/" "notes"
        ⟨[("/notes/sub/b.md", "B"), ("/notes/a.md", "A")],
          ["/notes", "/notes/sub"]⟩)
    ∧ resource_list_notes "/" "notes"
        ⟨[("/notes/sub/b.md", "B"), ("/notes/a.md", "A")],
          ["/notes", "/notes/sub"]⟩ =
      [⟨"note:///a.md", "a", "Markdown note: a", "text/markdown"⟩,
        ⟨"note:////sub/b.md", "/sub/b", "Markdown note: /sub/b",
          "text/markdown"⟩]) :=
  resource_list_links_shape "/" "notes"
    ⟨[("/notes/sub/b.md", "B"), ("/notes/a.md", "A")], ["/notes", "/notes/sub"]⟩

theorem dropWhile_slash_head : ∀ (l t : List Char),
    l.dropWhile (· = '/') = '/' :: t → False := by
  intro l
  induction l with
  | nil => intro t h; simp at h
  | cons c cs ih =>
    intro t h
    by_cases hc : c = '/'
    · rw [List.dropWhile_cons, if_pos (by simp [hc])] at h
      exact ih t h
    · rw [List.dropWhile_cons, if_neg (by simp [hc])] at h
      exact hc (List.head_eq_of_cons_eq h)

theorem stripLeadingSlashes_not_abs (q : String) :
    strStartsWith "/" (stripLeadingSlashes q) = false := by
  apply Bool.eq_false_iff.mpr
  intro hcon
  obtain ⟨t, ht⟩ := strStartsWith_slash_iff.mp hcon
  exact dropWhile_slash_head q.data t ht

/-- `osJoin` of a `//`-free left part and a non-absolute right part never
starts with `//`. -/
theorem osJoin_not_dslash2 (a x : String) (ha : strStartsWith "//" a = false)
    (hx : strStartsWith "/" x = false) :
    strStartsWith "//" (osJoin a x) = false := by
  apply Bool.eq_false_iff.mpr
  intro hcon
  obtain ⟨t, ht⟩ := strStartsWith_dslash_iff.mp hcon
  rw [osJoin] at ht
  revert ht
  split
  · next h => rw [hx] at h; exact absurd h (by simp)
  · split
    · next h =>
      intro ht
      rw [data_append_str] at ht
      cases ha' : a.data with
      | nil =>
        rw [ha', List.nil_append] at ht
        have : strStartsWith "/" x = true := strStartsWith_slash_iff.mpr ⟨'/' :: t, ht⟩
        rw [hx] at this
        exact absurd this (by simp)
      | cons d ds =>
        rw [ha'] at ht
        simp at ht
        obtain ⟨hd, hrest⟩ := ht
        cases ds with
        | nil =>
          simp at hrest
          have : strStartsWith "/" x = true := strStartsWith_slash_iff.mpr ⟨t, hrest⟩
          rw [hx] at this
          exact absurd this (by simp)
        | cons e es =>
          simp at hrest
          have : strStartsWith "//" a = true :=
            strStartsWith_dslash_iff.mpr ⟨es, by rw [ha', hd, hrest.1]⟩
          rw [ha] at this
          exact absurd this (by simp)
    · next h =>
      intro ht
      have hne : ¬ (a = "" ∨ strEndsWith "/" a = true) := by simpa using h
      rw [data_append_str, data_append_str] at ht
      cases ha' : a.data with
      | nil =>
        exact hne (Or.inl (String.ext (by rw [ha'])))
      | cons d ds =>
        rw [ha'] at ht
        simp at ht
        obtain ⟨hd, hrest⟩ := ht
        cases ds with
        | nil =>
          exact hne (Or.inr (strEndsWith_slash_of_data (by rw [ha', hd])))
        | cons e es =>
          simp at hrest
          have : strStartsWith "//" a = true :=
            strStartsWith_dslash_iff.mpr ⟨es, by rw [ha', hd, hrest.1]⟩
          rw [ha] at this
          exact absurd this (by simp)

theorem joinSlash_append_data :
    ∀ (A R : List String), A ≠ [] → R ≠ [] →
    (joinSlash (A ++ R)).data = (joinSlash A).data ++ '/' :: (joinSlash R).data := by
  intro A
  induction A with
  | nil => intro R h; exact absurd rfl h
  | cons a as ih =>
    intro R _ hR
    cases as with
    | nil =>
      cases R with
      | nil => exact absurd rfl hR
      | cons r rs =>
        rw [show ([a] ++ r :: rs) = a :: r :: rs from rfl, joinSlash_data_cons_cons]
        rfl
    | cons b bs =>
      rw [List.cons_append, show (b :: bs ++ R) = b :: (bs ++ R) from rfl,
        joinSlash_data_cons_cons,
        show (joinSlash (b :: (bs ++ R))).data = (joinSlash ((b :: bs) ++ R)).data from rfl,
        ih R (by simp) hR, joinSlash_data_cons_cons]
      simp

/-- C10: the resource link returned by a successful `tool_upload_picture`
carries the absolute resolved filesystem path (the confinement result,
which begins with the canonical server-side root directory) as its name,
inside its description, and inside its URI — not the caller's logical path
— while note-creation links carry the logical path. -/
theorem upload_link_discloses_confined_path (cwd notesDir : String) (fs : FS)
    (p content cp : String)
    (hcwd : strStartsWith "/" cwd = true)
    (hcwd2 : strStartsWith "//" cwd = false)
    (hnd : strStartsWith "//" notesDir = false)
    (h : normalize_path cwd notesDir p = some cp) :
    (∀ fs' link, tool_upload_picture cwd notesDir fs p content = .ok (fs', link) →
      link.name = cp ∧ link.description = "Uploaded image: " ++ cp ∧
      link.uri = PICTURE_URI_PREFIX ++ "/" ++ cp)
    ∧ strStartsWith (abspath cwd notesDir) cp = true
    ∧ (strStartsWith "/" p = false → cp ≠ p)
    ∧ (∀ fs₂ c₂ fs₃ logs link₂,
        tool_create_or_update_note cwd notesDir fs₂ p c₂ = .ok (fs₃, logs, link₂) →
        link₂.name = withNoteExt p) := by
  have hiff := normalize_path_eq_iff cwd notesDir p hcwd hcwd2 hnd
  rw [hiff] at h
  by_cases hpre : splitFilterComps (abspath cwd notesDir) <+:
      splitFilterComps (abspath cwd (osJoin notesDir (stripLeadingSlashes p)))
  swap
  · rw [if_neg hpre] at h
    exact absurd h (by simp)
  rw [if_pos hpre] at h
  have hcp : cp = abspath cwd (osJoin notesDir (stripLeadingSlashes p)) :=
    (Option.some.inj h).symm
  refine ⟨?_, ?_, ?_, ?_⟩
  · intro fs' link hok
    have h' : normalize_path cwd notesDir p = some cp := by
      rw [hiff, if_pos hpre, hcp]
    by_cases hpng : strEndsWith ".png" cp = true
    · simp only [tool_upload_picture, h', PICTURE_EXTENSIONS] at hok
      simp [hpng, Except.ok.injEq, Prod.mk.injEq] at hok
      rw [← hok.2]
      exact ⟨rfl, rfl, rfl⟩
    · by_cases hjpg : strEndsWith ".jpg" cp = true
      · simp only [tool_upload_picture, h', PICTURE_EXTENSIONS] at hok
        simp [hpng, hjpg, Except.ok.injEq, Prod.mk.injEq] at hok
        rw [← hok.2]
        exact ⟨rfl, rfl, rfl⟩
      · by_cases hgif : strEndsWith ".gif" cp = true
        · simp only [tool_upload_picture, h', PICTURE_EXTENSIONS] at hok
          simp [hpng, hjpg, hgif, Except.ok.injEq, Prod.mk.injEq] at hok
          rw [← hok.2]
          exact ⟨rfl, rfl, rfl⟩
        · simp only [tool_upload_picture, h', PICTURE_EXTENSIONS] at hok
          simp [hpng, hjpg, hgif] at hok
  · have hrecb := abspath_reconstruct cwd notesDir hcwd hcwd2 hnd
    have hrecu := abspath_reconstruct cwd (osJoin notesDir (stripLeadingSlashes p))
      hcwd hcwd2 (osJoin_not_dslash2 notesDir (stripLeadingSlashes p) hnd
        (stripLeadingSlashes_not_abs p))
    obtain ⟨R, hR⟩ := hpre
    rw [strStartsWith_iff, hcp, hrecb, hrecu, ← hR]
    cases hA : splitFilterComps (abspath cwd notesDir) with
    | nil =>
      rw [show joinSlash ([] : List String) = "" from rfl]
      rw [data_slash_append]
      cases R with
      | nil => simp
      | cons r rs => simp
    | cons a as =>
      cases R with
      | nil =>
        rw [List.append_nil]
      | cons r rs =>
        rw [data_slash_append, data_slash_append,
          joinSlash_append_data (a :: as) (r :: rs) (by simp) (by simp)]
        exact List.cons_prefix_cons.mpr ⟨rfl, List.prefix_append _ _⟩
  · intro hp hcon
    have habs : strStartsWith "/" cp = true := by
      rw [hcp]
      exact abspath_isAbs cwd _ hcwd
    rw [hcon, hp] at habs
    exact absurd habs (by simp)
  · intro fs₂ c₂ fs₃ logs link₂ hok
    cases hn : normalize_path cwd notesDir (withNoteExt p) with
    | none => simp [tool_create_or_update_note, hn] at hok
    | some np₂ =>
      simp only [tool_create_or_update_note, hn, Except.ok.injEq, Prod.mk.injEq] at hok
      obtain ⟨-, -, hl⟩ := hok
      rw [← hl]

/-- Witness for C10 at the upload of `a/pic.png` (confined to
`/notes/a/pic.png`). -/
theorem upload_link_discloses_confined_path_witness :
    (strStartsWith "/" "/" = true ∧ strStartsWith "//" "/" = false ∧
      strStartsWith "//" "notes" = false ∧
      normalize_path "/" "notes" "a/pic.png" = some "/notes/a/pic.png") ∧
    ((∀ fs' link,
      tool_upload_picture "/" "notes" FS.empty "a/pic.png" "D" = .ok (fs', link) →
      link.name = "/notes/a/pic.png" ∧
      link.description = "Uploaded image: " ++ "/notes/a/pic.png" ∧
      link.uri = PICTURE_URI_PREFIX ++ "/" ++ "/notes/a/pic.png")
    ∧ strStartsWith (abspath "/" "notes") "/notes/a/pic.png" = true
    ∧ (strStartsWith "/" "a/pic.png" = false → ("/notes/a/pic.png" : String) ≠ "a/pic.png")
    ∧ (∀ fs₂ c₂ fs₃ logs link₂,
        tool_create_or_update_note "/" "notes" fs₂ "a/pic.png" c₂ =
          .ok (fs₃, logs, link₂) →
        link₂.name = withNoteExt "a/pic.png")) :=
  ⟨⟨by decide, by decide, by decide, by decide⟩,
    upload_link_discloses_confined_path "/" "notes" FS.empty "a/pic.png" "D"
      "/notes/a/pic.png" (by decide) (by decide) (by decide) (by decide)⟩

end AsabMcp
